import Mathlib

/-!
# ps4-live-allmight: verification development for `main.go`

Shallow embedding of the proxy supervisor in `src/main.go`.

* Go strings are lists of characters (one character per byte).
* Library calls (`strings`, `net`, `net/url`, `io`) are modelled from the Go
  standard library's documented behaviour; each model says so.
* Goroutines are modelled by interleaving: a state, and a total step function
  taking the scheduler's choice (and the environment's answer) as input.
-/

namespace Allmight

/-! ## Strings -/

/-- Go `string`, as the list of its bytes. -/
abbrev Str := List Char

/-- Go `strings.HasPrefix(s, prefix)`:
`len(s) >= len(prefix) && s[:len(prefix)] == prefix`. -/
def HasPrefix (s pre : Str) : Bool :=
  decide (pre.length ≤ s.length) && (s.take pre.length == pre)

/-- The byte `'0' + d` written by `uitoa` for a decimal digit `d`. -/
def digitByte (d : Nat) : Char := Char.ofNat (48 + d % 10)

/-- The loop of Go `uitoa` (package `net`): digits are produced from the least
significant one and stored right to left; `fuel` bounds the iterations. -/
def uitoaLoop : Nat → Nat → Str → Str
  | 0, val, buf => digitByte val :: buf
  | fuel + 1, val, buf =>
    if val ≥ 10 then uitoaLoop fuel (val / 10) (digitByte (val - val / 10 * 10) :: buf)
    else digitByte val :: buf

/-- Go `uitoa(val)`: decimal rendering of an unsigned integer. -/
def uitoa (val : Nat) : Str :=
  if val = 0 then ['0'] else uitoaLoop val val []

/-! ## Bind validation (`main`, lines 148-158) -/

/-- One entry of `net.InterfaceAddrs()`: an interface address with the length
of its network mask, as held by `*net.IPNet`. -/
structure IfAddr where
  ip : Str
  prefixLen : Nat
  deriving DecidableEq, Repr

/-- Go `(*net.IPNet).String()`: `ip.String() + "/" + uitoa(prefixLen)`. -/
def IfAddr.String (a : IfAddr) : Str := a.ip ++ ['/'] ++ uitoa a.prefixLen

/-- The search loop of `main`:
`for _, nif := range nifs { if strings.HasPrefix(nif.String(), bind+"/") { found = true; break } }`. -/
def bindFound : List IfAddr → Str → Bool
  | [], _ => false
  | nif :: rest, bind =>
    if HasPrefix nif.String (bind ++ ['/']) then true else bindFound rest bind

/-- The addresses of a host with the loopback interface and one LAN interface. -/
def sampleAddrs : List IfAddr :=
  [{ ip := "127.0.0.1".toList, prefixLen := 8 },
   { ip := "10.0.0.10".toList, prefixLen := 24 },
   { ip := "::1".toList, prefixLen := 128 }]

/-! ## `io.Copy` (the two copies of the forward relay, lines 81 and 85)

`io.Copy(dst, src)` is the standard library loop

```
for {
  nr, er := src.Read(buf)
  if nr > 0 {
    nw, ew := dst.Write(buf[0:nr])
    if nw < 0 || nr < nw { nw = 0; if ew == nil { ew = errInvalidWrite } }
    written += int64(nw)
    if ew != nil { err = ew; break }
    if nr != nw { err = ErrShortWrite; break }
  }
  if er != nil { if er != EOF { err = er }; break }
}
```

The environment is a script: the answers of the successive `Read` calls, each
paired with the answer `Write` gives if it is called in that iteration. -/

/-- Error returned by a `Read`: `io.EOF` or any other error. -/
inductive ReadErr
  | eof
  | other
  deriving DecidableEq, Repr

/-- Answer of one `src.Read(buf)`: the bytes `buf[0:nr]` and the error. -/
structure ReadRes where
  data : Str
  err : Option ReadErr
  deriving DecidableEq, Repr

/-- Answer of one `dst.Write(p)`: the count `nw` and whether an error came
with it. The connection took the first `nw` bytes of `p`. -/
structure WriteRes where
  nw : Nat
  failed : Bool
  deriving DecidableEq, Repr

/-- One iteration of the copy loop, as answered by the two connections. -/
structure CopyIter where
  read : ReadRes
  write : WriteRes
  deriving DecidableEq, Repr

/-- Error returned by `io.Copy`. -/
inductive CopyErr
  | invalidWrite
  | shortWrite
  | writeErr
  | readErr
  deriving DecidableEq, Repr

/-- Where a copy stands once the script is used up: still inside a `Read`
(`blocked`), or returned with its error value. -/
inductive CopyStatus
  | blocked
  | returned (err : Option CopyErr)
  deriving DecidableEq, Repr

/-- Outcome of a copy: the bytes `dst` took, the count `written`, the status. -/
structure CopyResult where
  delivered : Str
  written : Nat
  status : CopyStatus
  deriving DecidableEq, Repr

/-- The write half of one iteration (`if nr > 0 { ... }`): bytes taken by
`dst`, the amount added to `written`, and the error that breaks the loop. -/
def copyWrite (it : CopyIter) : Str × Nat × Option CopyErr :=
  let nr := it.read.data.length
  if nr > 0 then
    let taken := it.read.data.take it.write.nw
    if nr < it.write.nw then
      (taken, 0, some (if it.write.failed then CopyErr.writeErr else CopyErr.invalidWrite))
    else if it.write.failed then (taken, it.write.nw, some CopyErr.writeErr)
    else if nr ≠ it.write.nw then (taken, it.write.nw, some CopyErr.shortWrite)
    else (taken, it.write.nw, none)
  else ([], 0, none)

/-- Go `io.Copy(dst, src)` run against a script of iterations. -/
def ioCopy : List CopyIter → CopyResult
  | [] => { delivered := [], written := 0, status := CopyStatus.blocked }
  | it :: rest =>
    match copyWrite it with
    | (taken, n, some e) =>
      { delivered := taken, written := n, status := CopyStatus.returned (some e) }
    | (taken, n, none) =>
      match it.read.err with
      | some ReadErr.eof =>
        { delivered := taken, written := n, status := CopyStatus.returned none }
      | some ReadErr.other =>
        { delivered := taken, written := n, status := CopyStatus.returned (some CopyErr.readErr) }
      | none =>
        let r := ioCopy rest
        { delivered := taken ++ r.delivered, written := n + r.written, status := r.status }

/-- The bytes `io.Copy` obtained from `src`: the data of every `Read` it made,
up to and including the first one that came with an error. -/
def bytesRead : List CopyIter → Str
  | [] => []
  | it :: rest =>
    match it.read.err with
    | some _ => it.read.data
    | none => it.read.data ++ bytesRead rest

/-- A write that takes the whole chunk without error. -/
def CopyIter.writeComplete (it : CopyIter) : Prop :=
  it.write.nw = it.read.data.length ∧ it.write.failed = false

/-- The environment of one established relay: the script met by the spawned
task's `io.Copy(dc, sc)` and the one met by the handler's `io.Copy(sc, dc)`. -/
structure RelayIO where
  clientToDst : List CopyIter
  dstToClient : List CopyIter

/-- Bytes the outbound connection `dc` receives: `io.Copy(dc, sc)` (line 81). -/
def RelayIO.toDst (io : RelayIO) : Str := (ioCopy io.clientToDst).delivered

/-- Bytes the client connection `sc` receives: `io.Copy(sc, dc)` (line 85). -/
def RelayIO.toClient (io : RelayIO) : Str := (ioCopy io.dstToClient).delivered

/-! ## The forward-proxy connection handler (lines 72-86)

```
go func(sc net.Conn) {
  defer sc.Close()
  dc, err := net.Dial("tcp", dst)
  if err != nil { log.Printf("[forward] dial: %v", err); return }
  defer dc.Close()
  go func() { io.Copy(dc, sc); sc.Close(); dc.Close() }()
  io.Copy(sc, dc)
}(conn)
```

Two tasks run interleaved: the handler and the copy task it spawns. -/

/-- The two connections of one relay. -/
inductive Conn
  | sc
  | dc
  deriving DecidableEq, Repr

/-- The two tasks of one relay: the handler, and the task spawned at line 80. -/
inductive RelayTask
  | handler
  | copier
  deriving DecidableEq, Repr

/-- Observable events of one handler run. `copy t ended` is one step of task
`t` inside its `io.Copy`; `ended` tells whether the copy returned. -/
inductive RelayEv
  | dial
  | logDial
  | spawn
  | copy (t : RelayTask) (ended : Bool)
  | close (t : RelayTask) (c : Conn)
  deriving DecidableEq, Repr

/-- Program counter of the handler task. -/
inductive HPc
  | deferSc
  | dial
  | logDial
  | deferDc
  | spawn
  | copy
  | returning
  | done
  deriving DecidableEq, Repr

/-- Program counter of the spawned copy task. -/
inductive GPc
  | idle
  | copy
  | closeSc
  | closeDc
  | done
  deriving DecidableEq, Repr

/-- State of one relayed connection. `defers` is the handler's stack of
deferred `Close` calls, the most recent first. -/
structure Relay where
  hpc : HPc
  gpc : GPc
  defers : List Conn
  scOpen : Bool
  dcOpen : Bool
  trace : List RelayEv
  deriving DecidableEq, Repr

/-- The state when the handler is entered with the accepted connection. -/
def Relay.init : Relay :=
  { hpc := HPc.deferSc, gpc := GPc.idle, defers := [], scOpen := true, dcOpen := false,
    trace := [] }

/-- The scheduler's choice: which task moves. `ended` is the environment's
answer when that task is inside `io.Copy`: whether the copy returns now. -/
inductive Sched
  | h (ended : Bool)
  | g (ended : Bool)
  deriving DecidableEq, Repr

/-- The call `c.Close()` made by task `t`. -/
def Relay.close (s : Relay) (t : RelayTask) (c : Conn) : Relay :=
  match c with
  | Conn.sc => { s with scOpen := false, trace := s.trace ++ [RelayEv.close t Conn.sc] }
  | Conn.dc => { s with dcOpen := false, trace := s.trace ++ [RelayEv.close t Conn.dc] }

/-- One step of the handler task. -/
def handlerStep (dialOk : Bool) (ended : Bool) (s : Relay) : Relay :=
  match s.hpc with
  | HPc.deferSc => { s with hpc := HPc.dial, defers := Conn.sc :: s.defers }
  | HPc.dial =>
    if dialOk then
      { s with hpc := HPc.deferDc, dcOpen := true, trace := s.trace ++ [RelayEv.dial] }
    else { s with hpc := HPc.logDial, trace := s.trace ++ [RelayEv.dial] }
  | HPc.logDial => { s with hpc := HPc.returning, trace := s.trace ++ [RelayEv.logDial] }
  | HPc.deferDc => { s with hpc := HPc.spawn, defers := Conn.dc :: s.defers }
  | HPc.spawn => { s with hpc := HPc.copy, gpc := GPc.copy, trace := s.trace ++ [RelayEv.spawn] }
  | HPc.copy =>
    { s with hpc := if ended then HPc.returning else HPc.copy,
             trace := s.trace ++ [RelayEv.copy RelayTask.handler ended] }
  | HPc.returning =>
    match s.defers with
    | [] => { s with hpc := HPc.done }
    | c :: rest => ({ s with defers := rest }).close RelayTask.handler c
  | HPc.done => s

/-- One step of the spawned copy task. -/
def copierStep (ended : Bool) (s : Relay) : Relay :=
  match s.gpc with
  | GPc.idle => s
  | GPc.copy =>
    { s with gpc := if ended then GPc.closeSc else GPc.copy,
             trace := s.trace ++ [RelayEv.copy RelayTask.copier ended] }
  | GPc.closeSc => ({ s with gpc := GPc.closeDc }).close RelayTask.copier Conn.sc
  | GPc.closeDc => ({ s with gpc := GPc.done }).close RelayTask.copier Conn.dc
  | GPc.done => s

/-- One step of the relay under the scheduler's choice. -/
def relayStep (dialOk : Bool) (s : Relay) : Sched → Relay
  | Sched.h ended => handlerStep dialOk ended s
  | Sched.g ended => copierStep ended s

/-- A run of the handler: the schedule applied from the initial state. -/
def relayRun (dialOk : Bool) (sched : List Sched) : Relay :=
  sched.foldl (relayStep dialOk) Relay.init

/-- Number of `Close` calls made on connection `c` by task `t`. -/
def Relay.closesBy (s : Relay) (t : RelayTask) (c : Conn) : Nat :=
  s.trace.count (RelayEv.close t c)

/-- Number of `Close` calls made on connection `c`, both tasks together. -/
def Relay.closes (s : Relay) (c : Conn) : Nat :=
  s.closesBy RelayTask.handler c + s.closesBy RelayTask.copier c

/-- Number of `net.Dial` calls. -/
def Relay.dials (s : Relay) : Nat := s.trace.count RelayEv.dial

/-- Whether task `t` has made a step inside `io.Copy`. -/
def Relay.copied (s : Relay) (t : RelayTask) : Bool :=
  s.trace.contains (RelayEv.copy t true) || s.trace.contains (RelayEv.copy t false)

/-- A finished run: the handler has returned and the spawned task, if there
is one, has returned too. -/
def Relay.finished (s : Relay) : Bool :=
  decide (s.hpc = HPc.done) && (decide (s.gpc = GPc.done) || decide (s.gpc = GPc.idle))

/-! ## The accept loops (lines 38-54 and 63-88)

```
go func() {
  defer wg.Done()
  for {
    conn, err := ln.Accept()
    if err != nil { log.Printf("[..] accept: %v", err); time.Sleep(time.Second); continue }
    go func(conn net.Conn) { ... }(conn)
  }
}()
```
-/

/-- The two services with an accept loop. -/
inductive Service
  | rtmp
  | forward
  deriving DecidableEq, Repr

/-- The tag the service puts in front of its log lines. -/
def Service.tag : Service → Str
  | Service.rtmp => "[rtmp]".toList
  | Service.forward => "[forward]".toList

/-- Answer of one `ln.Accept()`: a connection (named by a number) or an error
(its text). -/
inductive AcceptRes
  | ok (conn : Nat)
  | fail (err : Str)
  deriving DecidableEq, Repr

/-- Go `time.Second`, a `time.Duration` counted in nanoseconds. -/
def Second : Nat := 1000000000

/-- Observable events of an accept loop. `dispatch svc conn` is the `go`
statement that starts the service's handler on `conn`. -/
inductive LoopEv
  | accept
  | log (msg : Str)
  | sleep (ns : Nat)
  | dispatch (svc : Service) (conn : Nat)
  | wgDone
  | fatal (msg : Str)
  deriving DecidableEq, Repr

/-- Program counter of the loop task: at the `Accept` call, at the log line of
the error branch, at the sleep, at the `go` statement, or past the loop (the
function has returned and its deferred `wg.Done()` has run). -/
inductive LoopPc
  | accept
  | logErr (err : Str)
  | sleep
  | spawn (conn : Nat)
  | exited
  deriving DecidableEq, Repr

/-- State of a loop task: `pending` holds the answers the listener will give
to the coming `Accept` calls. -/
structure Loop where
  pc : LoopPc
  pending : List AcceptRes
  trace : List LoopEv
  deriving DecidableEq, Repr

/-- The loop task at its start, given the answers of the listener. -/
def Loop.init (script : List AcceptRes) : Loop :=
  { pc := LoopPc.accept, pending := script, trace := [] }

/-- One step of the loop task. With no answer pending the task stays blocked
inside `Accept`. No statement of the loop body leaves the loop. -/
def loopStep (svc : Service) (s : Loop) : Loop :=
  match s.pc with
  | LoopPc.accept =>
    match s.pending with
    | [] => s
    | AcceptRes.fail err :: rest =>
      { pc := LoopPc.logErr err, pending := rest, trace := s.trace ++ [LoopEv.accept] }
    | AcceptRes.ok conn :: rest =>
      { pc := LoopPc.spawn conn, pending := rest, trace := s.trace ++ [LoopEv.accept] }
  | LoopPc.logErr err =>
    { s with pc := LoopPc.sleep,
             trace := s.trace ++ [LoopEv.log (svc.tag ++ " accept: ".toList ++ err)] }
  | LoopPc.sleep => { s with pc := LoopPc.accept, trace := s.trace ++ [LoopEv.sleep Second] }
  | LoopPc.spawn conn =>
    { s with pc := LoopPc.accept, trace := s.trace ++ [LoopEv.dispatch svc conn] }
  | LoopPc.exited => s

/-- The loop task after `n` steps. -/
def loopRun (svc : Service) : Nat → Loop → Loop
  | 0, s => s
  | n + 1, s => loopRun svc n (loopStep svc s)

/-- What the specification asks of one accept outcome: a failure is logged and
followed by a pause of one second, a success is dispatched to one handler. -/
def expectedFor (svc : Service) : AcceptRes → List LoopEv
  | AcceptRes.fail err =>
    [LoopEv.accept, LoopEv.log (svc.tag ++ " accept: ".toList ++ err), LoopEv.sleep Second]
  | AcceptRes.ok conn => [LoopEv.accept, LoopEv.dispatch svc conn]

/-- What the specification asks of a sequence of accept outcomes. -/
def expectedTrace (svc : Service) (script : List AcceptRes) : List LoopEv :=
  (script.map (expectedFor svc)).flatten

/-- Number of steps the loop needs to consume a script. -/
def stepsFor : List AcceptRes → Nat
  | [] => 0
  | AcceptRes.fail _ :: rest => stepsFor rest + 3
  | AcceptRes.ok _ :: rest => stepsFor rest + 2

/-- The connections of the successful accepts, in order. -/
def accepted : List AcceptRes → List Nat
  | [] => []
  | AcceptRes.fail _ :: rest => accepted rest
  | AcceptRes.ok conn :: rest => conn :: accepted rest

/-- The connections handed to a handler, in order. -/
def dispatched : List LoopEv → List Nat
  | [] => []
  | LoopEv.dispatch _ conn :: rest => conn :: dispatched rest
  | _ :: rest => dispatched rest

/-- A loop event that ends the loop task or the process. -/
def LoopEv.isEnd : LoopEv → Bool
  | LoopEv.wgDone => true
  | LoopEv.fatal _ => true
  | _ => false

/-! ## Library functions used by `startRTMPProxy` (lines 22-32)

Models of `strings.Trim`, `net.SplitHostPort`, `net.JoinHostPort` and
`url.Parse` of the Go standard library, written after their source. -/

/-- Go `bytealg.IndexByteString(s, c)`; `none` stands for `-1`. -/
def indexByte : Str → Char → Option Nat
  | [], _ => none
  | x :: xs, c => if x = c then some 0 else (indexByte xs c).map (· + 1)

/-- Go `bytealg.LastIndexByteString(s, c)`; `none` stands for `-1`. -/
def lastIndexByte : Str → Char → Option Nat
  | [], _ => none
  | x :: xs, c =>
    match lastIndexByte xs c with
    | some i => some (i + 1)
    | none => if x = c then some 0 else none

/-- Go `strings.Index(s, sub)`; `none` stands for `-1`. -/
def indexOf : Str → Str → Option Nat
  | [], sub => if sub = [] then some 0 else none
  | x :: xs, sub =>
    if sub.isPrefixOf (x :: xs) then some 0 else (indexOf xs sub).map (· + 1)

/-- Go `strings.Cut(s, sep)` for a separator of one byte: the text before the
first separator, the text after it, and whether it was found. -/
def cutByte : Str → Char → Str × Str × Bool
  | [], _ => ([], [], false)
  | x :: xs, c =>
    if x = c then ([], xs, true)
    else
      let r := cutByte xs c
      (x :: r.1, r.2.1, r.2.2)

/-- Go `trimLeftByte(s, c)`: `for len(s) > 0 && s[0] == c { s = s[1:] }`. -/
def trimLeftByte (s : Str) (c : Char) : Str := s.dropWhile (· == c)

/-- Go `trimRightByte(s, c)`:
`for len(s) > 0 && s[len(s)-1] == c { s = s[:len(s)-1] }`. -/
def trimRightByte (s : Str) (c : Char) : Str := s.rdropWhile (· == c)

/-- Go `strings.Trim(s, cutset)` for a cutset of one ASCII byte `c`:
`trimLeftByte(trimRightByte(s, c), c)`. -/
def Trim (s : Str) (c : Char) : Str := trimLeftByte (trimRightByte s c) c

/-- Errors of `net.SplitHostPort`. -/
inductive AddrErr
  | missingPort
  | tooManyColons
  | missingBracket
  | unexpectedOpen
  | unexpectedClose
  deriving DecidableEq, Repr

/-- The tail of `net.SplitHostPort`: no `[` from position `j`, no `]` from
position `k`, and the port is what follows the last colon, at position `i`. -/
def splitFinish (hostport host : Str) (i j k : Nat) : Except AddrErr (Str × Str) :=
  if (indexByte (hostport.drop j) '[').isSome then Except.error AddrErr.unexpectedOpen
  else if (indexByte (hostport.drop k) ']').isSome then Except.error AddrErr.unexpectedClose
  else Except.ok (host, hostport.drop (i + 1))

/-- Go `net.SplitHostPort(hostport)`. -/
def SplitHostPort (hostport : Str) : Except AddrErr (Str × Str) :=
  match lastIndexByte hostport ':' with
  | none => Except.error AddrErr.missingPort
  | some i =>
    if hostport.head? = some '[' then
      match indexByte hostport ']' with
      | none => Except.error AddrErr.missingBracket
      | some close =>
        if close + 1 = hostport.length then Except.error AddrErr.missingPort
        else if close + 1 = i then
          splitFinish hostport ((hostport.take close).drop 1) i 1 (close + 1)
        else if hostport.get? (close + 1) = some ':' then Except.error AddrErr.tooManyColons
        else Except.error AddrErr.missingPort
    else
      let host := hostport.take i
      if (indexByte host ':').isSome then Except.error AddrErr.tooManyColons
      else splitFinish hostport host i 0 0

/-- Go `net.JoinHostPort(host, port)`: a host with a colon is taken for an
IPv6 literal and put in brackets. -/
def JoinHostPort (host port : Str) : Str :=
  if (indexByte host ':').isSome then ['['] ++ host ++ "]:".toList ++ port
  else host ++ [':'] ++ port

/-! ### `url.Parse` -/

/-- Whether the byte `c` lies between `lo` and `hi`. -/
def inRange (lo hi c : Char) : Bool := decide (lo.toNat ≤ c.toNat) && decide (c.toNat ≤ hi.toNat)

/-- ASCII letter. -/
def isAlpha (c : Char) : Bool := inRange 'a' 'z' c || inRange 'A' 'Z' c

/-- ASCII digit. -/
def isDigit (c : Char) : Bool := inRange '0' '9' c

/-- Go `ishex`. -/
def ishex (c : Char) : Bool := isDigit c || inRange 'a' 'f' c || inRange 'A' 'F' c

/-- Go `unhex`. -/
def unhex (c : Char) : Nat :=
  if isDigit c then c.toNat - 48
  else if inRange 'a' 'f' c then c.toNat - 97 + 10
  else if inRange 'A' 'F' c then c.toNat - 65 + 10
  else 0

/-- Go `stringContainsCTLByte`: a byte below 0x20, or 0x7f. -/
def containsCTL (s : Str) : Bool := s.any (fun c => decide (c.toNat < 32) || decide (c.toNat = 127))

/-- The part of a URL a string is unescaped for (Go `encoding`). -/
inductive Encoding
  | path
  | host
  | zone
  | userPassword
  | fragment
  deriving DecidableEq, Repr

/-- Go `shouldEscape(c, encodeHost)`: letters, digits, the sub-delimiters, the
colon, brackets, angle brackets, the double quote and `-_.~` need no escape in
a host; every other byte does. -/
def shouldEscapeHost (c : Char) : Bool :=
  !(isAlpha c || isDigit c ||
    ['!', '$', '&', Char.ofNat 39, '(', ')', '*', '+', ',', ';', '=', ':', '[', ']', '<', '>',
      Char.ofNat 34, '-', '_', '.', '~'].contains c)

/-- Errors of `url.Parse`. -/
inductive ParseErr
  | controlChar
  | missingScheme
  | colonInFirstSegment
  | escape
  | invalidHostChar
  | invalidPort
  | missingBracket
  | invalidUserinfo
  deriving DecidableEq, Repr

/-- The checking pass of Go `unescape(s, mode)`: every `%` is followed by two
hex digits; in a host only `%25` and escapes of non-ASCII bytes are allowed and
every plain ASCII byte must be a host byte. -/
def unescapeCheck (mode : Encoding) : Str → Except ParseErr Unit
  | [] => Except.ok ()
  | c :: rest =>
    if c = '%' then
      match rest with
      | a :: b :: rest2 =>
        if !ishex a || !ishex b then Except.error ParseErr.escape
        else if mode = Encoding.host && decide (unhex a < 8) && !(a = '2' && b = '5') then
          Except.error ParseErr.escape
        else if mode = Encoding.zone && !(a = '2' && b = '5') &&
            Char.ofNat (unhex a * 16 + unhex b) != ' ' &&
            shouldEscapeHost (Char.ofNat (unhex a * 16 + unhex b)) then
          Except.error ParseErr.escape
        else unescapeCheck mode rest2
      | _ => Except.error ParseErr.escape
    else if (mode = Encoding.host || mode = Encoding.zone) && decide (c.toNat < 128) &&
        shouldEscapeHost c then
      Except.error ParseErr.invalidHostChar
    else unescapeCheck mode rest

/-- The decoding pass of Go `unescape`: `%XY` becomes the byte with that value. -/
def unescapeDecode : Str → Str
  | [] => []
  | c :: rest =>
    if c = '%' then
      match rest with
      | a :: b :: rest2 => Char.ofNat (unhex a * 16 + unhex b) :: unescapeDecode rest2
      | _ => []
    else c :: unescapeDecode rest

/-- Go `unescape(s, mode)` for the modes `url.Parse` uses. -/
def unescape (s : Str) (mode : Encoding) : Except ParseErr Str :=
  match unescapeCheck mode s with
  | Except.error e => Except.error e
  | Except.ok _ => Except.ok (unescapeDecode s)

/-- The loop of Go `getScheme`, at index `i` with `rest = rawURL[i:]`. -/
def getSchemeLoop (rawURL : Str) : Nat → Str → Except ParseErr (Str × Str)
  | _, [] => Except.ok ([], rawURL)
  | i, c :: rest =>
    if isAlpha c then getSchemeLoop rawURL (i + 1) rest
    else if isDigit c || c = '+' || c = '-' || c = '.' then
      if i = 0 then Except.ok ([], rawURL) else getSchemeLoop rawURL (i + 1) rest
    else if c = ':' then
      if i = 0 then Except.error ParseErr.missingScheme else Except.ok (rawURL.take i, rest)
    else Except.ok ([], rawURL)

/-- Go `getScheme(rawURL)`: the scheme and what follows its colon. -/
def getScheme (rawURL : Str) : Except ParseErr (Str × Str) := getSchemeLoop rawURL 0 rawURL

/-- Go `validOptionalPort(port)`: empty, or a colon followed by digits only. -/
def validOptionalPort (port : Str) : Bool :=
  match port with
  | [] => true
  | c :: digits => c = ':' && digits.all isDigit

/-- Go `validUserinfo(s)`. -/
def validUserinfo (s : Str) : Bool :=
  s.all (fun r => isAlpha r || isDigit r ||
    ['-', '.', '_', ':', '~', '!', '$', '&', Char.ofNat 39, '(', ')', '*', '+', ',', ';', '=',
      '%', '@'].contains r)

/-- Go `parseHost(host)`. -/
def parseHost (host : Str) : Except ParseErr Str :=
  if host.head? = some '[' then
    match lastIndexByte host ']' with
    | none => Except.error ParseErr.missingBracket
    | some i =>
      if !validOptionalPort (host.drop (i + 1)) then Except.error ParseErr.invalidPort
      else
        match indexOf (host.take i) "%25".toList with
        | some zone =>
          match unescape (host.take zone) Encoding.host,
                unescape ((host.take i).drop zone) Encoding.zone,
                unescape (host.drop i) Encoding.host with
          | Except.ok h1, Except.ok h2, Except.ok h3 => Except.ok (h1 ++ h2 ++ h3)
          | Except.error e, _, _ => Except.error e
          | _, Except.error e, _ => Except.error e
          | _, _, Except.error e => Except.error e
        | none => unescape host Encoding.host
  else
    match lastIndexByte host ':' with
    | some i =>
      if !validOptionalPort (host.drop i) then Except.error ParseErr.invalidPort
      else unescape host Encoding.host
    | none => unescape host Encoding.host

/-- Go `parseAuthority(authority)`: whether there is a userinfo, and the host.
The userinfo is what stands before the last `@`; it is checked and dropped
from the host. -/
def parseAuthority (authority : Str) : Except ParseErr (Bool × Str) :=
  match lastIndexByte authority '@' with
  | none =>
    match parseHost authority with
    | Except.error e => Except.error e
    | Except.ok host => Except.ok (false, host)
  | some i =>
    match parseHost (authority.drop (i + 1)) with
    | Except.error e => Except.error e
    | Except.ok host =>
      let userinfo := authority.take i
      if !validUserinfo userinfo then Except.error ParseErr.invalidUserinfo
      else
        let up := cutByte userinfo ':'
        match unescape up.1 Encoding.userPassword, unescape up.2.1 Encoding.userPassword with
        | Except.ok _, Except.ok _ => Except.ok (true, host)
        | Except.error e, _ => Except.error e
        | _, Except.error e => Except.error e

/-- Go `url.URL`, with the fields `startRTMPProxy` reads (`Host`, `Path`,
`RawQuery`) and those that tell the forms of URL apart. -/
structure URL where
  Scheme : Str
  Opaque : Str
  hasUser : Bool
  Host : Str
  Path : Str
  RawQuery : Str
  deriving DecidableEq, Repr

/-- Go `parse(rawURL, false)`: the URL without its fragment. -/
def parseNoFragment (rawURL : Str) : Except ParseErr URL :=
  if containsCTL rawURL then Except.error ParseErr.controlChar
  else if rawURL = ['*'] then
    Except.ok { Scheme := [], Opaque := [], hasUser := false, Host := [], Path := ['*'],
                RawQuery := [] }
  else
    match getScheme rawURL with
    | Except.error e => Except.error e
    | Except.ok (scheme, afterScheme) =>
      let forceQuery : Bool := afterScheme.getLast? = some '?' && afterScheme.count '?' = 1
      let rest : Str := if forceQuery then afterScheme.dropLast else (cutByte afterScheme '?').1
      let rawQuery : Str := if forceQuery then [] else (cutByte afterScheme '?').2.1
      if rest.head? ≠ some '/' ∧ scheme ≠ [] then
        Except.ok { Scheme := scheme, Opaque := rest, hasUser := false, Host := [], Path := [],
                    RawQuery := rawQuery }
      else if rest.head? ≠ some '/' ∧ (indexByte (cutByte rest '/').1 ':').isSome then
        Except.error ParseErr.colonInFirstSegment
      else if (scheme ≠ [] ∨ ¬ "///".toList.isPrefixOf rest) ∧ "//".toList.isPrefixOf rest then
        let afterSlashes := rest.drop 2
        let authority : Str :=
          match indexByte afterSlashes '/' with
          | some i => afterSlashes.take i
          | none => afterSlashes
        let path : Str :=
          match indexByte afterSlashes '/' with
          | some i => afterSlashes.drop i
          | none => []
        match parseAuthority authority, unescape path Encoding.path with
        | Except.ok (user, host), Except.ok p =>
          Except.ok { Scheme := scheme, Opaque := [], hasUser := user, Host := host, Path := p,
                      RawQuery := rawQuery }
        | Except.error e, _ => Except.error e
        | _, Except.error e => Except.error e
      else
        match unescape rest Encoding.path with
        | Except.ok p =>
          Except.ok { Scheme := scheme, Opaque := [], hasUser := false, Host := [], Path := p,
                      RawQuery := rawQuery }
        | Except.error e => Except.error e

/-- Go `url.Parse(rawURL)`: the fragment is cut off at the first `#` and must
unescape; the rest is parsed. -/
def urlParse (rawURL : Str) : Except ParseErr URL :=
  match parseNoFragment (cutByte rawURL '#').1 with
  | Except.error e => Except.error e
  | Except.ok u =>
    match unescape (cutByte rawURL '#').2.1 Encoding.fragment with
    | Except.error e => Except.error e
    | Except.ok _ => Except.ok u

/-! ### The translation done by `startRTMPProxy` -/

/-- The four arguments of `rtmpproxy.NewServer`. -/
structure RTMPArgs where
  upstream : Str
  appName : Str
  canonical : Str
  query : Str
  deriving DecidableEq, Repr

/-- Lines 26-30: `host, port, _ := net.SplitHostPort(u.Host)`, then the
default `host = u.Host; port = "1935"` when `port == ""`. On an error
`SplitHostPort` returns two empty strings. -/
def upstreamHostPort (u : URL) : Str × Str :=
  let hp : Str × Str :=
    match SplitHostPort u.Host with
    | Except.ok r => r
    | Except.error _ => ([], [])
  if hp.2 = [] then (u.Host, "1935".toList) else hp

/-- Lines 26-32: the arguments `startRTMPProxy` hands to the collaborator:
`net.JoinHostPort(host, port)`, `appName`,
`fmt.Sprintf("rtmp://%s/%s", u.Host, appName)` and `"?"+u.RawQuery`. -/
def startRTMPProxyArgs (u : URL) : RTMPArgs :=
  let hp := upstreamHostPort u
  let appName := Trim u.Path '/'
  { upstream := JoinHostPort hp.1 hp.2,
    appName := appName,
    canonical := "rtmp://".toList ++ u.Host ++ ['/'] ++ appName,
    query := ['?'] ++ u.RawQuery }

/-- Lines 22-32 on a raw playback URL: `none` when `url.Parse` fails (the
process then exits with `[rtmp] url parse`). -/
def startRTMPProxyArgsOf (pubUrl : Str) : Option RTMPArgs :=
  match urlParse pubUrl with
  | Except.ok u => some (startRTMPProxyArgs u)
  | Except.error _ => none

/-- The text of the authority of a `scheme://authority/path` URL as written:
what stands between `//` and the next `/`, `?` or `#`. -/
def authorityAsWritten (rawURL : Str) : Str :=
  match indexOf rawURL "//".toList with
  | none => []
  | some i => (rawURL.drop (i + 2)).takeWhile (fun c => !(c = '/' || c = '?' || c = '#'))

/-- The default playback URL of the `-r` flag (line 144). -/
def defaultStreamUrl : Str := "rtmp://server/app/?stream".toList

/-- What `url.Parse` makes of the default playback URL. -/
def defaultStreamURL : URL :=
  { Scheme := "rtmp".toList, Opaque := [], hasUser := false, Host := "server".toList,
    Path := "/app/".toList, RawQuery := "stream".toList }

/-- A playback URL with credentials in its authority. -/
def userinfoStreamUrl : Str := "rtmp://user:pw@server/app".toList

/-! ## `main` and the three start functions (lines 21-173)

The process is a state machine over the statements of `main` and of the start
functions it calls, interleaved with the listener tasks they start. -/

/-- The command line options (lines 136-146). -/
structure Config where
  bind : Str
  hijackDNS : Bool
  streamUrl : Str
  forward : Str
  deriving DecidableEq, Repr

/-- What the host answers to the calls made during startup: the interface
addresses, whether `net.ParseIP(bind).To4()` has four bytes, and the error (if
any) of `dnsproxy.LoadResolvConf` and of the two `net.Listen` calls. -/
structure Env where
  nifs : List IfAddr
  bindIsIPv4 : Bool
  resolvErr : Option Str
  rtmpListenErr : Option Str
  fwdListenErr : Option Str
  deriving DecidableEq, Repr

/-- The two DNS serve tasks (lines 118-131). -/
inductive DnsTask
  | tcp
  | udp
  deriving DecidableEq, Repr

/-- The listener tasks the process can start. -/
inductive TaskId
  | dns (t : DnsTask)
  | acceptLoop (svc : Service)
  deriving DecidableEq, Repr

/-- Life of a listener task: not started, started and not returned, returned. -/
inductive TaskSt
  | absent
  | running
  | returned
  deriving DecidableEq, Repr

/-- The three start functions. -/
inductive StartFn
  | startDNSProxy
  | startRTMPProxy
  | startForwardProxy
  deriving DecidableEq, Repr

/-- The fatal exits (`log.Fatalf`), by their format string:
`invalid bind IP: %s`, `IPv4 only: %s`, `[dnsproxy] load resolvconf: %v`,
`[dnsproxy] serve tcp: %v`, `[dnsproxy] serve udp: %v`, `[rtmp] url parse: %v`,
`[rtmp] listen: %v`, `[forward] listen: %v`. -/
inductive Fatal
  | invalidBindIP (bind : Str)
  | ipv4Only (bind : Str)
  | loadResolvConf (err : Str)
  | serve (t : DnsTask) (err : Str)
  | rtmpUrlParse (err : ParseErr)
  | rtmpListen (err : Str)
  | forwardListen (err : Str)
  deriving DecidableEq, Repr

/-- Observable events of the process. -/
inductive PEv
  | call (f : StartFn)
  | newServer (args : RTMPArgs)
  | listen (addr : Str)
  | wgAdd (n : Nat)
  | go (t : TaskId)
  | wgDone (t : TaskId)
  | log (msg : Str)
  | fatal (f : Fatal)
  deriving DecidableEq, Repr

/-- Whether the process runs, has exited through `log.Fatalf`, or has exited
because `main` returned. -/
inductive Exit
  | running
  | fatal (f : Fatal)
  | returned
  deriving DecidableEq, Repr

/-- Program counter of `main`, one value per statement. -/
inductive MainPc
  | validate
  | ifDNS
  | dnsParseIP
  | dnsConf
  | dnsResolv
  | dnsAdd
  | dnsGoTCP
  | dnsGoUDP
  | dnsLog
  | ifRTMP
  | rtmpParse
  | rtmpListen
  | rtmpAdd
  | rtmpGo
  | rtmpLog
  | ifForward
  | fwdListen
  | fwdAdd
  | fwdGo
  | fwdLog
  | wait
  | done
  deriving DecidableEq, Repr

/-- State of the process: where `main` stands, the counter `wg`, the four
listener tasks, the state of the two accept loops, the trace, the exit. -/
structure Proc where
  pc : MainPc
  wg : Int
  dnsTCP : TaskSt
  dnsUDP : TaskSt
  rtmpTask : TaskSt
  fwdTask : TaskSt
  rtmpLoop : Loop
  fwdLoop : Loop
  trace : List PEv
  exit : Exit
  deriving DecidableEq, Repr

/-- The process when `main` is entered: `wg` is a zero `sync.WaitGroup`. -/
def Proc.init : Proc :=
  { pc := MainPc.validate, wg := 0, dnsTCP := TaskSt.absent, dnsUDP := TaskSt.absent,
    rtmpTask := TaskSt.absent, fwdTask := TaskSt.absent, rtmpLoop := Loop.init [],
    fwdLoop := Loop.init [], trace := [], exit := Exit.running }

/-- What moves next: `main`; a DNS serve call returning (`none` for a nil
error); the listener of a service getting an accept outcome; the accept loop of
a service making a step. -/
inductive Act
  | main
  | serveReturns (t : DnsTask) (err : Option Str)
  | arrive (svc : Service) (r : AcceptRes)
  | loop (svc : Service)
  deriving DecidableEq, Repr

/-- The call `log.Fatalf`: the process exits. -/
def Proc.fatalf (s : Proc) (f : Fatal) : Proc :=
  { s with exit := Exit.fatal f, trace := s.trace ++ [PEv.fatal f] }

/-- `main` moves to `pc`, leaving the events `evs`. -/
def Proc.goto (s : Proc) (pc : MainPc) (evs : List PEv) : Proc :=
  { s with pc := pc, trace := s.trace ++ evs }

/-- One statement of `main` (or of the start function it is in). The only
pattern of `hijackList` is a constant that compiles, so the `regexp.Compile`
of line 102 does not fail and `dnsConf` (lines 96-112) always goes on. -/
def mainStep (cfg : Config) (env : Env) (s : Proc) : Proc :=
  match s.pc with
  | MainPc.validate =>
    if bindFound env.nifs cfg.bind then s.goto MainPc.ifDNS []
    else s.fatalf (Fatal.invalidBindIP cfg.bind)
  | MainPc.ifDNS =>
    if cfg.hijackDNS then s.goto MainPc.dnsParseIP [PEv.call StartFn.startDNSProxy]
    else s.goto MainPc.ifRTMP []
  | MainPc.dnsParseIP =>
    if env.bindIsIPv4 then s.goto MainPc.dnsConf [] else s.fatalf (Fatal.ipv4Only cfg.bind)
  | MainPc.dnsConf => s.goto MainPc.dnsResolv []
  | MainPc.dnsResolv =>
    match env.resolvErr with
    | none => s.goto MainPc.dnsAdd []
    | some err => s.fatalf (Fatal.loadResolvConf err)
  | MainPc.dnsAdd => { s with pc := MainPc.dnsGoTCP, wg := s.wg + 2, trace := s.trace ++ [PEv.wgAdd 2] }
  | MainPc.dnsGoTCP =>
    { s with pc := MainPc.dnsGoUDP, dnsTCP := TaskSt.running,
             trace := s.trace ++ [PEv.go (TaskId.dns DnsTask.tcp)] }
  | MainPc.dnsGoUDP =>
    { s with pc := MainPc.dnsLog, dnsUDP := TaskSt.running,
             trace := s.trace ++ [PEv.go (TaskId.dns DnsTask.udp)] }
  | MainPc.dnsLog => s.goto MainPc.ifRTMP [PEv.log "dnsproxy started".toList]
  | MainPc.ifRTMP =>
    if cfg.streamUrl ≠ [] then s.goto MainPc.rtmpParse [PEv.call StartFn.startRTMPProxy]
    else s.goto MainPc.ifForward []
  | MainPc.rtmpParse =>
    match urlParse cfg.streamUrl with
    | Except.error e => s.fatalf (Fatal.rtmpUrlParse e)
    | Except.ok u => s.goto MainPc.rtmpListen [PEv.newServer (startRTMPProxyArgs u)]
  | MainPc.rtmpListen =>
    match env.rtmpListenErr with
    | none => s.goto MainPc.rtmpAdd [PEv.listen (JoinHostPort cfg.bind "1935".toList)]
    | some err => s.fatalf (Fatal.rtmpListen err)
  | MainPc.rtmpAdd => { s with pc := MainPc.rtmpGo, wg := s.wg + 1, trace := s.trace ++ [PEv.wgAdd 1] }
  | MainPc.rtmpGo =>
    { s with pc := MainPc.rtmpLog, rtmpTask := TaskSt.running,
             trace := s.trace ++ [PEv.go (TaskId.acceptLoop Service.rtmp)] }
  | MainPc.rtmpLog => s.goto MainPc.ifForward [PEv.log "rtmpproxy started".toList]
  | MainPc.ifForward =>
    if cfg.forward ≠ [] then s.goto MainPc.fwdListen [PEv.call StartFn.startForwardProxy]
    else s.goto MainPc.wait []
  | MainPc.fwdListen =>
    match env.fwdListenErr with
    | none => s.goto MainPc.fwdAdd [PEv.listen (JoinHostPort cfg.bind "8080".toList)]
    | some err => s.fatalf (Fatal.forwardListen err)
  | MainPc.fwdAdd => { s with pc := MainPc.fwdGo, wg := s.wg + 1, trace := s.trace ++ [PEv.wgAdd 1] }
  | MainPc.fwdGo =>
    { s with pc := MainPc.fwdLog, fwdTask := TaskSt.running,
             trace := s.trace ++ [PEv.go (TaskId.acceptLoop Service.forward)] }
  | MainPc.fwdLog => s.goto MainPc.wait [PEv.log "forwardproxy started".toList]
  | MainPc.wait => if s.wg = 0 then { s with pc := MainPc.done, exit := Exit.returned } else s
  | MainPc.done => s

/-- A DNS serve call returns (lines 119-123 and 126-130): with an error the
process exits through `log.Fatalf`; with a nil error the task function returns
and its deferred `wg.Done()` runs. -/
def serveStep (t : DnsTask) (err : Option Str) (s : Proc) : Proc :=
  match t with
  | DnsTask.tcp =>
    if s.dnsTCP = TaskSt.running then
      match err with
      | some e => s.fatalf (Fatal.serve DnsTask.tcp e)
      | none => { s with dnsTCP := TaskSt.returned, wg := s.wg - 1,
                         trace := s.trace ++ [PEv.wgDone (TaskId.dns DnsTask.tcp)] }
    else s
  | DnsTask.udp =>
    if s.dnsUDP = TaskSt.running then
      match err with
      | some e => s.fatalf (Fatal.serve DnsTask.udp e)
      | none => { s with dnsUDP := TaskSt.returned, wg := s.wg - 1,
                         trace := s.trace ++ [PEv.wgDone (TaskId.dns DnsTask.udp)] }
    else s

/-- The listener of a service, once its accept loop runs, gets one more accept
outcome to hand out. -/
def arriveStep (svc : Service) (r : AcceptRes) (s : Proc) : Proc :=
  match svc with
  | Service.rtmp =>
    if s.rtmpTask = TaskSt.running then
      { s with rtmpLoop := { s.rtmpLoop with pending := s.rtmpLoop.pending ++ [r] } }
    else s
  | Service.forward =>
    if s.fwdTask = TaskSt.running then
      { s with fwdLoop := { s.fwdLoop with pending := s.fwdLoop.pending ++ [r] } }
    else s

/-- The accept loop of a service makes one step; if that step left the loop,
the task function returns and its deferred `wg.Done()` runs. -/
def loopTaskStep (svc : Service) (s : Proc) : Proc :=
  match svc with
  | Service.rtmp =>
    if s.rtmpTask = TaskSt.running then
      if (loopStep Service.rtmp s.rtmpLoop).pc = LoopPc.exited then
        { s with rtmpLoop := loopStep Service.rtmp s.rtmpLoop, rtmpTask := TaskSt.returned,
                 wg := s.wg - 1,
                 trace := s.trace ++ [PEv.wgDone (TaskId.acceptLoop Service.rtmp)] }
      else { s with rtmpLoop := loopStep Service.rtmp s.rtmpLoop }
    else s
  | Service.forward =>
    if s.fwdTask = TaskSt.running then
      if (loopStep Service.forward s.fwdLoop).pc = LoopPc.exited then
        { s with fwdLoop := loopStep Service.forward s.fwdLoop, fwdTask := TaskSt.returned,
                 wg := s.wg - 1,
                 trace := s.trace ++ [PEv.wgDone (TaskId.acceptLoop Service.forward)] }
      else { s with fwdLoop := loopStep Service.forward s.fwdLoop }
    else s

/-- One step of the process. Nothing moves once the process has exited. -/
def procStep (cfg : Config) (env : Env) (s : Proc) (a : Act) : Proc :=
  if s.exit ≠ Exit.running then s
  else
    match a with
    | Act.main => mainStep cfg env s
    | Act.serveReturns t err => serveStep t err s
    | Act.arrive svc r => arriveStep svc r s
    | Act.loop svc => loopTaskStep svc s

/-- A run of the process: the actions applied from the initial state. -/
def procRun (cfg : Config) (env : Env) (acts : List Act) : Proc :=
  acts.foldl (procStep cfg env) Proc.init

/-- 1 for a task that has been started and has not returned, else 0. -/
def TaskSt.live : TaskSt → Nat
  | TaskSt.running => 1
  | _ => 0

/-- 1 for a task that has returned, else 0. -/
def TaskSt.gone : TaskSt → Nat
  | TaskSt.returned => 1
  | _ => 0

/-- Number of listener tasks started and not yet returned. -/
def Proc.liveTasks (s : Proc) : Nat :=
  s.dnsTCP.live + s.dnsUDP.live + s.rtmpTask.live + s.fwdTask.live

/-- Number of listener tasks that have returned. -/
def Proc.goneTasks (s : Proc) : Nat :=
  s.dnsTCP.gone + s.dnsUDP.gone + s.rtmpTask.gone + s.fwdTask.gone

/-- Number of tasks `main` has counted with `wg.Add` and not yet started: it
stands between the `wg.Add` and the `go` statement(s) of a start function. -/
def MainPc.announced : MainPc → Nat
  | MainPc.dnsGoTCP => 2
  | MainPc.dnsGoUDP => 1
  | MainPc.rtmpGo => 1
  | MainPc.fwdGo => 1
  | _ => 0

/-- Number of listener tasks the configuration asks for:
two for the DNS service, one for the RTMP relay, one for the forward proxy. -/
def Config.serviceTasks (cfg : Config) : Nat :=
  (if cfg.hijackDNS then 2 else 0) + (if cfg.streamUrl ≠ [] then 1 else 0) +
    (if cfg.forward ≠ [] then 1 else 0)

/-- Whether a start function has been called, or a listener opened. -/
def PEv.isStart : PEv → Bool
  | PEv.call _ => true
  | PEv.listen _ => true
  | PEv.newServer _ => true
  | PEv.wgAdd _ => true
  | PEv.go _ => true
  | _ => false

/-! ## Invariants and reference runs used by the proofs about the handler -/

/-- What the handler task has done, as a function of where it stands
(dial succeeded). -/
def HInv (s : Relay) : Prop :=
  match s.hpc with
  | HPc.deferSc => s.defers = [] ∧ s.closesBy RelayTask.handler Conn.sc = 0 ∧
      s.closesBy RelayTask.handler Conn.dc = 0 ∧ s.gpc = GPc.idle ∧ s.dcOpen = false ∧
      RelayEv.copy RelayTask.handler true ∉ s.trace
  | HPc.dial => s.defers = [Conn.sc] ∧ s.closesBy RelayTask.handler Conn.sc = 0 ∧
      s.closesBy RelayTask.handler Conn.dc = 0 ∧ s.gpc = GPc.idle ∧ s.dcOpen = false ∧
      RelayEv.copy RelayTask.handler true ∉ s.trace
  | HPc.logDial => False
  | HPc.deferDc => s.defers = [Conn.sc] ∧ s.closesBy RelayTask.handler Conn.sc = 0 ∧
      s.closesBy RelayTask.handler Conn.dc = 0 ∧ s.gpc = GPc.idle ∧ s.dcOpen = true ∧
      RelayEv.copy RelayTask.handler true ∉ s.trace
  | HPc.spawn => s.defers = [Conn.dc, Conn.sc] ∧ s.closesBy RelayTask.handler Conn.sc = 0 ∧
      s.closesBy RelayTask.handler Conn.dc = 0 ∧ s.gpc = GPc.idle ∧ s.dcOpen = true ∧
      RelayEv.copy RelayTask.handler true ∉ s.trace
  | HPc.copy => s.defers = [Conn.dc, Conn.sc] ∧ s.closesBy RelayTask.handler Conn.sc = 0 ∧
      s.closesBy RelayTask.handler Conn.dc = 0 ∧ s.gpc ≠ GPc.idle ∧
      RelayEv.copy RelayTask.handler true ∉ s.trace
  | HPc.returning => s.gpc ≠ GPc.idle ∧
      ((s.defers = [Conn.dc, Conn.sc] ∧ s.closesBy RelayTask.handler Conn.sc = 0 ∧
          s.closesBy RelayTask.handler Conn.dc = 0) ∨
       (s.defers = [Conn.sc] ∧ s.closesBy RelayTask.handler Conn.sc = 0 ∧
          s.closesBy RelayTask.handler Conn.dc = 1) ∨
       (s.defers = [] ∧ s.closesBy RelayTask.handler Conn.sc = 1 ∧
          s.closesBy RelayTask.handler Conn.dc = 1))
  | HPc.done => s.gpc ≠ GPc.idle ∧ s.defers = [] ∧
      s.closesBy RelayTask.handler Conn.sc = 1 ∧ s.closesBy RelayTask.handler Conn.dc = 1

/-- What the spawned copy task has done, as a function of where it stands. -/
def GInv (s : Relay) : Prop :=
  match s.gpc with
  | GPc.idle => s.closesBy RelayTask.copier Conn.sc = 0 ∧
      s.closesBy RelayTask.copier Conn.dc = 0 ∧ RelayEv.copy RelayTask.copier true ∉ s.trace
  | GPc.copy => s.closesBy RelayTask.copier Conn.sc = 0 ∧
      s.closesBy RelayTask.copier Conn.dc = 0 ∧ RelayEv.copy RelayTask.copier true ∉ s.trace
  | GPc.closeSc => s.closesBy RelayTask.copier Conn.sc = 0 ∧
      s.closesBy RelayTask.copier Conn.dc = 0
  | GPc.closeDc => s.closesBy RelayTask.copier Conn.sc = 1 ∧
      s.closesBy RelayTask.copier Conn.dc = 0
  | GPc.done => s.closesBy RelayTask.copier Conn.sc = 1 ∧
      s.closesBy RelayTask.copier Conn.dc = 1

/-- A connection is open exactly as long as no `Close` was called on it
(`dc` from the moment the dial returned it). -/
def ConnInv (s : Relay) : Prop :=
  (s.scOpen = true ↔ s.closes Conn.sc = 0) ∧
  (s.closes Conn.dc ≠ 0 → s.dcOpen = false) ∧
  (s.gpc ≠ GPc.idle → (s.dcOpen = true ↔ s.closes Conn.dc = 0))

/-- Invariant of the runs in which the dial succeeds. -/
def RelayInv (s : Relay) : Prop := HInv s ∧ GInv s ∧ ConnInv s

/-- The states of the runs in which the dial fails: the handler alone moves,
through `defer`, the dial, the log line, the deferred `sc.Close()`, the return. -/
def dialFailStates : List Relay :=
  (List.range 6).map (fun k => relayRun false (List.replicate k (Sched.h false)))

/-- All choices of the scheduler. -/
def allSched : List Sched := [Sched.h true, Sched.h false, Sched.g true, Sched.g false]

/-- A complete run of an established relay: the client side ends first, the
spawned task closes both connections, then the handler's copy returns and its
deferred calls close both again. -/
def doubleCloseRun : List Sched :=
  [Sched.h false, Sched.h false, Sched.h false, Sched.h false,
   Sched.g true, Sched.g false, Sched.g false,
   Sched.h true, Sched.h false, Sched.h false, Sched.h false]

/-- A script of the echo scenario: the client sends `ping`, then ends. -/
def pingScript : List CopyIter :=
  [{ read := { data := "ping".toList, err := none }, write := { nw := 4, failed := false } },
   { read := { data := [], err := some ReadErr.eof }, write := { nw := 0, failed := false } }]

/-- The echo scenario: `ping` goes up, `ping` comes back. -/
def pingIO : RelayIO := { clientToDst := pingScript, dstToClient := pingScript }

instance (it : CopyIter) : Decidable it.writeComplete := by
  unfold CopyIter.writeComplete
  infer_instance

/-- The events the loop still owes for the outcome it is handling and for the
outcomes still pending. -/
def loopTodo (svc : Service) (s : Loop) : List LoopEv :=
  match s.pc with
  | LoopPc.accept => expectedTrace svc s.pending
  | LoopPc.logErr err =>
    [LoopEv.log (svc.tag ++ " accept: ".toList ++ err), LoopEv.sleep Second] ++
      expectedTrace svc s.pending
  | LoopPc.sleep => [LoopEv.sleep Second] ++ expectedTrace svc s.pending
  | LoopPc.spawn conn => [LoopEv.dispatch svc conn] ++ expectedTrace svc s.pending
  | LoopPc.exited => []

/-- Invariant of the loop task: it has not left the loop, nothing in its trace
ends it, and its trace followed by what it still owes is the expected trace. -/
def LoopInv (svc : Service) (script : List AcceptRes) (s : Loop) : Prop :=
  s.pc ≠ LoopPc.exited ∧ (∀ e ∈ s.trace, e.isEnd = false) ∧
  s.trace ++ loopTodo svc s = expectedTrace svc script

/-! ## Invariant and reference runs used by the proofs about the process -/

/-- Position of a statement of `main` in program order. -/
def MainPc.rank : MainPc → Nat
  | MainPc.validate => 0
  | MainPc.ifDNS => 1
  | MainPc.dnsParseIP => 2
  | MainPc.dnsConf => 3
  | MainPc.dnsResolv => 4
  | MainPc.dnsAdd => 5
  | MainPc.dnsGoTCP => 6
  | MainPc.dnsGoUDP => 7
  | MainPc.dnsLog => 8
  | MainPc.ifRTMP => 9
  | MainPc.rtmpParse => 10
  | MainPc.rtmpListen => 11
  | MainPc.rtmpAdd => 12
  | MainPc.rtmpGo => 13
  | MainPc.rtmpLog => 14
  | MainPc.ifForward => 15
  | MainPc.fwdListen => 16
  | MainPc.fwdAdd => 17
  | MainPc.fwdGo => 18
  | MainPc.fwdLog => 19
  | MainPc.wait => 20
  | MainPc.done => 21

/-- 1 for a task that has been started (running or returned), else 0. -/
def TaskSt.started : TaskSt → Nat
  | TaskSt.absent => 0
  | _ => 1

/-- Invariant of the process: the counter equals the tasks announced plus the
tasks live; which tasks have been started follows from where `main` stands and
from the configuration; the accept loops have not left their loop. -/
def ProcInv (cfg : Config) (s : Proc) : Prop :=
  s.wg = ((s.pc.announced + s.liveTasks : Nat) : Int) ∧
  s.dnsTCP.started = (if cfg.hijackDNS = true ∧ 7 ≤ s.pc.rank then 1 else 0) ∧
  s.dnsUDP.started = (if cfg.hijackDNS = true ∧ 8 ≤ s.pc.rank then 1 else 0) ∧
  s.rtmpTask.started = (if cfg.streamUrl ≠ [] ∧ 14 ≤ s.pc.rank then 1 else 0) ∧
  s.fwdTask.started = (if cfg.forward ≠ [] ∧ 19 ≤ s.pc.rank then 1 else 0) ∧
  (2 ≤ s.pc.rank ∧ s.pc.rank ≤ 8 → cfg.hijackDNS = true) ∧
  (10 ≤ s.pc.rank ∧ s.pc.rank ≤ 14 → cfg.streamUrl ≠ []) ∧
  (16 ≤ s.pc.rank ∧ s.pc.rank ≤ 19 → cfg.forward ≠ []) ∧
  s.rtmpLoop.pc ≠ LoopPc.exited ∧ s.fwdLoop.pc ≠ LoopPc.exited ∧
  s.rtmpTask ≠ TaskSt.returned ∧ s.fwdTask ≠ TaskSt.returned ∧
  (s.exit = Exit.returned ↔ s.pc = MainPc.done) ∧
  (s.pc = MainPc.done → s.wg = 0)

/-- A configuration with the DNS service enabled on the loopback address. -/
def dnsOnlyConfig : Config :=
  { bind := "127.0.0.1".toList, hijackDNS := true, streamUrl := [], forward := [] }

/-- A host on which every startup call succeeds. -/
def goodEnv : Env :=
  { nifs := sampleAddrs, bindIsIPv4 := true, resolvErr := none, rtmpListenErr := none,
    fwdListenErr := none }

/-- A configuration whose bind address is no address of `goodEnv`. -/
def badBindConfig : Config :=
  { bind := "10.0.0.1".toList, hijackDNS := true, streamUrl := defaultStreamUrl,
    forward := "127.0.0.1:9000".toList }

/-! ## Lemmas on strings -/

theorem HasPrefix_iff (s pre : Str) : HasPrefix s pre = true ↔ pre <+: s := by
  unfold HasPrefix
  rw [List.prefix_iff_eq_take]
  constructor
  · intro h
    simp only [Bool.and_eq_true, decide_eq_true_eq, beq_iff_eq] at h
    exact h.2.symm
  · intro h
    simp only [Bool.and_eq_true, decide_eq_true_eq, beq_iff_eq]
    refine ⟨?_, h.symm⟩
    have := congrArg List.length h
    simp only [List.length_take] at this
    omega

theorem digitByte_ne_slash (d : Nat) : digitByte d ≠ '/' := by
  unfold digitByte
  have h : d % 10 < 10 := Nat.mod_lt _ (by decide)
  generalize d % 10 = r at h
  interval_cases r <;> decide

theorem uitoaLoop_no_slash (fuel val : Nat) (buf : Str) (hb : '/' ∉ buf) :
    '/' ∉ uitoaLoop fuel val buf := by
  induction fuel generalizing val buf with
  | zero =>
    simp only [uitoaLoop, List.mem_cons, not_or]
    exact ⟨fun h => digitByte_ne_slash _ h.symm, hb⟩
  | succ n ih =>
    simp only [uitoaLoop]
    split
    · apply ih
      simp only [List.mem_cons, not_or]
      exact ⟨fun h => digitByte_ne_slash _ h.symm, hb⟩
    · simp only [List.mem_cons, not_or]
      exact ⟨fun h => digitByte_ne_slash _ h.symm, hb⟩

theorem uitoa_no_slash (val : Nat) : '/' ∉ uitoa val := by
  unfold uitoa
  split
  · decide
  · exact uitoaLoop_no_slash _ _ _ (List.not_mem_nil _)

theorem snoc_prefix_mem {c : Char} : ∀ (x d : Str), x ++ [c] <+: d → c ∈ d := by
  intro x d h
  obtain ⟨t, rfl⟩ := h
  simp

theorem slash_prefix_eq : ∀ (ip bind d : Str), '/' ∉ ip → '/' ∉ d →
    bind ++ ['/'] <+: ip ++ '/' :: d → bind = ip := by
  intro ip
  induction ip with
  | nil =>
    intro bind d _ hd h
    cases bind with
    | nil => rfl
    | cons c b =>
      exfalso
      simp only [List.nil_append, List.cons_append, List.cons_prefix_cons] at h
      exact hd (snoc_prefix_mem b d h.2)
  | cons i ip ih =>
    intro bind d hip hd h
    simp only [List.mem_cons, not_or] at hip
    cases bind with
    | nil =>
      exfalso
      simp only [List.nil_append, List.cons_append, List.cons_prefix_cons] at h
      exact hip.1 h.1
    | cons c b =>
      simp only [List.cons_append, List.cons_prefix_cons] at h
      rw [h.1, ih b d hip.2 hd h.2]

theorem addr_match_iff (a : IfAddr) (bind : Str) (h : '/' ∉ a.ip) :
    HasPrefix a.String (bind ++ ['/']) = true ↔ a.ip = bind := by
  rw [HasPrefix_iff]
  constructor
  · intro hp
    have hp' : bind ++ ['/'] <+: a.ip ++ '/' :: uitoa a.prefixLen := by
      simpa [IfAddr.String] using hp
    exact (slash_prefix_eq a.ip bind _ h (uitoa_no_slash _) hp').symm
  · intro e
    subst e
    exact ⟨uitoa a.prefixLen, by simp [IfAddr.String]⟩

theorem bindFound_iff (bind : Str) (nifs : List IfAddr) (hwf : ∀ a ∈ nifs, '/' ∉ a.ip) :
    bindFound nifs bind = true ↔ ∃ a ∈ nifs, a.ip = bind := by
  induction nifs with
  | nil => simp [bindFound]
  | cons a rest ih =>
    have ha := hwf a (List.mem_cons_self _ _)
    have hr : ∀ b ∈ rest, '/' ∉ b.ip := fun b hb => hwf b (List.mem_cons_of_mem _ hb)
    simp only [bindFound, List.mem_cons, exists_eq_or_imp]
    by_cases hm : HasPrefix a.String (bind ++ ['/']) = true
    · simp only [hm, if_true, true_iff]
      exact Or.inl ((addr_match_iff a bind ha).1 hm)
    · have hne : ¬ a.ip = bind := fun e => hm ((addr_match_iff a bind ha).2 e)
      simp only [hm, if_false, Bool.false_eq_true, ih hr, hne, false_or]

theorem bindFound_false_iff (bind : Str) (nifs : List IfAddr)
    (hwf : ∀ a ∈ nifs, '/' ∉ a.ip) :
    bindFound nifs bind = false ↔ ∀ a ∈ nifs, a.ip ≠ bind := by
  rw [← Bool.not_eq_true, bindFound_iff bind nifs hwf]
  simp

/-- C6: for every bind string and every list of interface addresses rendered
as `<ip>/<prefix-length>` whose ip parts contain no `/`, the bind validation of
`main` succeeds if and only if bind is equal to the ip part of one of the
addresses. So the empty string is rejected (no address has an empty ip part), a
bind containing `/` is rejected, and an address of which bind is only a proper
prefix does not match: `10.0.0.1` against `10.0.0.10/24`, `127.0.0` against
`127.0.0.1/8`. -/
theorem bind_validation_exact (bind : Str) (nifs : List IfAddr)
    (hwf : ∀ a ∈ nifs, '/' ∉ a.ip) :
    (bindFound nifs bind = true ↔ ∃ a ∈ nifs, a.ip = bind) ∧
    ((∀ a ∈ nifs, a.ip ≠ []) → bindFound nifs [] = false) ∧
    ('/' ∈ bind → bindFound nifs bind = false) ∧
    (∀ a ∈ nifs, ∀ x : Str, x ≠ [] → a.ip = bind ++ x →
      HasPrefix a.String (bind ++ ['/']) = false) ∧
    bindFound [{ ip := "10.0.0.10".toList, prefixLen := 24 }] "10.0.0.1".toList = false ∧
    bindFound [{ ip := "127.0.0.1".toList, prefixLen := 8 }] "127.0.0".toList = false ∧
    bindFound [{ ip := "127.0.0.1".toList, prefixLen := 8 }] "".toList = false := by
  refine ⟨bindFound_iff bind nifs hwf, ?_, ?_, ?_, by decide, by decide, by decide⟩
  · intro hne
    rw [bindFound_false_iff [] nifs hwf]
    exact hne
  · intro hs
    rw [bindFound_false_iff bind nifs hwf]
    intro a ha e
    exact hwf a ha (e ▸ hs)
  · intro a ha x hx e
    rw [← Bool.not_eq_true, addr_match_iff a bind (hwf a ha), e]
    intro h
    exact hx (List.append_right_eq_self.1 h)

/-- Witness of C6: on a host with addresses `127.0.0.1/8`, `10.0.0.10/24` and
`::1/128`, the bind `10.0.0.10` is accepted and `10.0.0.1` is rejected. -/
theorem bind_validation_exact_witness :
    (∀ a ∈ sampleAddrs, '/' ∉ a.ip) ∧
    bindFound sampleAddrs "10.0.0.10".toList = true ∧
    ¬ (bindFound sampleAddrs "10.0.0.1".toList = true) :=
  ⟨by decide,
   (bind_validation_exact "10.0.0.10".toList sampleAddrs (by decide)).1.2
     ⟨{ ip := "10.0.0.10".toList, prefixLen := 24 }, by decide, rfl⟩,
   fun h => absurd ((bind_validation_exact "10.0.0.1".toList sampleAddrs (by decide)).1.1 h)
     (by decide)⟩

/-! ## `io.Copy`: what arrives is what was read -/

theorem copyWrite_prefix_data (it : CopyIter) : (copyWrite it).1 <+: it.read.data := by
  unfold copyWrite
  simp only
  split_ifs <;> first | exact List.take_prefix _ _ | exact List.nil_prefix

theorem copyWrite_complete (it : CopyIter) (h : it.writeComplete) :
    copyWrite it = (it.read.data, it.read.data.length, none) := by
  obtain ⟨h1, h2⟩ := h
  unfold copyWrite
  by_cases hpos : it.read.data.length > 0
  · simp [hpos, h1, h2]
  · have hnil : it.read.data = [] := by
      cases hd : it.read.data with
      | nil => rfl
      | cons a l => simp [hd] at hpos
    simp [hnil]

theorem copyWrite_none (it : CopyIter) (taken : Str) (n : Nat)
    (h : copyWrite it = (taken, n, none)) : taken = it.read.data := by
  unfold copyWrite at h
  simp only at h
  by_cases h1 : it.read.data.length > 0
  · rw [if_pos h1] at h
    by_cases h2 : it.read.data.length < it.write.nw
    · rw [if_pos h2] at h
      simp at h
    · rw [if_neg h2] at h
      by_cases h3 : it.write.failed = true
      · rw [if_pos h3] at h
        simp at h
      · rw [if_neg h3] at h
        by_cases h4 : it.read.data.length ≠ it.write.nw
        · rw [if_pos h4] at h
          simp at h
        · rw [if_neg h4] at h
          simp only [Prod.mk.injEq, and_true] at h
          rw [← h.1]
          apply List.take_of_length_le
          simp only [ne_eq, Decidable.not_not] at h4
          omega
  · rw [if_neg h1] at h
    simp only [Prod.mk.injEq, and_true] at h
    rw [← h.1]
    cases hd : it.read.data with
    | nil => rfl
    | cons a l => simp [hd] at h1

theorem ioCopy_prefix_read (script : List CopyIter) :
    (ioCopy script).delivered <+: bytesRead script := by
  induction script with
  | nil => simp [ioCopy, bytesRead]
  | cons it rest ih =>
    have hp := copyWrite_prefix_data it
    rcases hw : copyWrite it with ⟨taken, n, e⟩
    rw [hw] at hp
    simp only at hp
    have hb : it.read.data <+: bytesRead (it :: rest) := by
      simp only [bytesRead]
      split
      · exact List.prefix_refl _
      · exact List.prefix_append _ _
    cases e with
    | some e =>
      simp only [ioCopy, hw]
      exact hp.trans hb
    | none =>
      rcases he : it.read.err with _ | e
      · simp only [ioCopy, hw, he, bytesRead]
        rw [copyWrite_none it taken n hw]
        exact (List.prefix_append_right_inj _).2 ih
      · cases e <;> simp only [ioCopy, hw, he] <;> exact hp.trans hb

theorem ioCopy_complete (script : List CopyIter) (h : ∀ it ∈ script, it.writeComplete) :
    (ioCopy script).delivered = bytesRead script := by
  induction script with
  | nil => simp [ioCopy, bytesRead]
  | cons it rest ih =>
    have hw := copyWrite_complete it (h it (List.mem_cons_self _ _))
    have ih' := ih (fun x hx => h x (List.mem_cons_of_mem _ hx))
    rcases he : it.read.err with _ | e
    · simp only [ioCopy, hw, he, bytesRead, ih']
    · cases e <;> simp only [ioCopy, hw, he, bytesRead]

theorem bytesRead_all (script : List CopyIter) (h : ∀ it ∈ script, it.read.err = none) :
    bytesRead script = (script.map (fun it => it.read.data)).flatten := by
  induction script with
  | nil => simp [bytesRead]
  | cons it rest ih =>
    have he := h it (List.mem_cons_self _ _)
    have ih' := ih (fun x hx => h x (List.mem_cons_of_mem _ hx))
    simp only [bytesRead, he, ih', List.map_cons, List.flatten_cons]

/-- C3: in an established forward relay the bytes delivered to the outbound
connection are always an initial part of the bytes read from the client, in the
same order and unaltered, and as long as every write on the outbound connection
takes its whole chunk (the connections stay open) they are exactly the bytes
read from the client, nothing added, dropped or altered: the concatenation of
every chunk read so far when no read has reported EOF or an error. The same
holds for the bytes read from the outbound connection and delivered to the
client. -/
theorem relay_forwards_bytes_unchanged (io : RelayIO) :
    io.toDst <+: bytesRead io.clientToDst ∧
    io.toClient <+: bytesRead io.dstToClient ∧
    ((∀ it ∈ io.clientToDst, it.writeComplete) →
      io.toDst = bytesRead io.clientToDst ∧
      ((∀ it ∈ io.clientToDst, it.read.err = none) →
        io.toDst = (io.clientToDst.map (fun it => it.read.data)).flatten)) ∧
    ((∀ it ∈ io.dstToClient, it.writeComplete) →
      io.toClient = bytesRead io.dstToClient ∧
      ((∀ it ∈ io.dstToClient, it.read.err = none) →
        io.toClient = (io.dstToClient.map (fun it => it.read.data)).flatten)) := by
  refine ⟨ioCopy_prefix_read _, ioCopy_prefix_read _, ?_, ?_⟩
  · intro hup
    exact ⟨ioCopy_complete _ hup, fun h => (ioCopy_complete _ hup).trans (bytesRead_all _ h)⟩
  · intro hdown
    exact ⟨ioCopy_complete _ hdown, fun h => (ioCopy_complete _ hdown).trans (bytesRead_all _ h)⟩

/-- Witness of C3: the echo scenario, `ping` delivered unchanged both ways. -/
theorem relay_forwards_bytes_unchanged_witness :
    (∀ it ∈ pingIO.clientToDst, it.writeComplete) ∧
    (∀ it ∈ pingIO.dstToClient, it.writeComplete) ∧
    pingIO.toDst = ['p', 'i', 'n', 'g'] ∧ pingIO.toClient = ['p', 'i', 'n', 'g'] :=
  ⟨by decide, by decide,
   ((relay_forwards_bytes_unchanged pingIO).2.2.1 (by decide)).1.trans (by decide),
   ((relay_forwards_bytes_unchanged pingIO).2.2.2 (by decide)).1.trans (by decide)⟩

/-! ## The connection handler: invariant of the runs with a successful dial -/

theorem relayInv_init : RelayInv Relay.init := by
  simp [RelayInv, HInv, GInv, ConnInv, Relay.init, Relay.closesBy, Relay.closes]

set_option maxHeartbeats 1600000 in
theorem relayInv_returning (s : Relay) (ended : Bool) (h : RelayInv s)
    (hp : s.hpc = HPc.returning) : RelayInv (handlerStep true ended s) := by
  obtain ⟨hh, hg, hc⟩ := h
  simp only [HInv, hp] at hh
  obtain ⟨hgi, hd | hd | hd⟩ := hh <;> obtain ⟨hd, h1, h2⟩ := hd <;>
    simp only [handlerStep, hp, hd] <;> cases gp : s.gpc <;>
    simp [RelayInv, HInv, GInv, ConnInv, hp, gp, hd, Relay.closesBy, Relay.closes, Relay.close,
      List.count_append, List.count_singleton] at hgi h1 h2 hg hc ⊢
  all_goals simp_all

set_option maxHeartbeats 1600000 in
theorem relayInv_handlerStep (s : Relay) (ended : Bool) (h : RelayInv s) :
    RelayInv (handlerStep true ended s) := by
  by_cases hr : s.hpc = HPc.returning
  · exact relayInv_returning s ended h hr
  obtain ⟨hh, hg, hc⟩ := h
  simp only [handlerStep]
  cases ended <;> cases hp : s.hpc <;> cases gp : s.gpc <;>
    simp [RelayInv, HInv, GInv, ConnInv, hp, gp, Relay.closesBy, Relay.closes, Relay.close,
      List.count_append, List.count_singleton] at hh hg hc hr ⊢
  all_goals simp_all

set_option maxHeartbeats 1600000 in
theorem relayInv_copierStep (s : Relay) (ended : Bool) (h : RelayInv s) :
    RelayInv (copierStep ended s) := by
  obtain ⟨hh, hg, hc⟩ := h
  simp only [copierStep]
  cases ended <;> cases hp : s.hpc <;> cases gp : s.gpc <;>
    simp [RelayInv, HInv, GInv, ConnInv, hp, gp, Relay.closesBy, Relay.closes, Relay.close,
      List.count_append, List.count_singleton] at hh hg hc ⊢
  all_goals simp_all

theorem relayInv_step (s : Relay) (a : Sched) (h : RelayInv s) :
    RelayInv (relayStep true s a) := by
  cases a with
  | h ended => exact relayInv_handlerStep s ended h
  | g ended => exact relayInv_copierStep s ended h

theorem relayInv_foldl (sched : List Sched) :
    ∀ s, RelayInv s → RelayInv (sched.foldl (relayStep true) s) := by
  induction sched with
  | nil => intro s h; exact h
  | cons a rest ih => intro s h; exact ih _ (relayInv_step s a h)

theorem relayInv_run (sched : List Sched) : RelayInv (relayRun true sched) :=
  relayInv_foldl sched _ relayInv_init

theorem relayRun_append (dialOk : Bool) (xs ys : List Sched) :
    relayRun dialOk (xs ++ ys) = ys.foldl (relayStep dialOk) (relayRun dialOk xs) := by
  simp [relayRun, List.foldl_append]

theorem mem_allSched (a : Sched) : a ∈ allSched := by
  cases a with
  | h b => cases b <;> decide
  | g b => cases b <;> decide

theorem dialFail_closed : ∀ s ∈ dialFailStates, ∀ a ∈ allSched,
    relayStep false s a ∈ dialFailStates := by
  decide

theorem dialFail_foldl (sched : List Sched) :
    ∀ s ∈ dialFailStates, sched.foldl (relayStep false) s ∈ dialFailStates := by
  induction sched with
  | nil => intro s h; exact h
  | cons a rest ih => intro s h; exact ih _ (dialFail_closed s h a (mem_allSched a))

theorem dialFail_run (sched : List Sched) : relayRun false sched ∈ dialFailStates :=
  dialFail_foldl sched _ (by decide)

/-- C2: when the outbound dial fails, in every run of the handler no relay
task is spawned, no copy step is made in either direction, the dial is
performed at most once and nothing is ever done on an outbound connection; the
handler returns after five steps of its own whatever happened before, and once
it has returned the run was exactly: one dial, the log line, one `Close` of the
client connection, which is then closed. -/
theorem dial_failure_aborts_relay (sched : List Sched) :
    (relayRun false sched).gpc = GPc.idle ∧
    RelayEv.spawn ∉ (relayRun false sched).trace ∧
    (relayRun false sched).copied RelayTask.handler = false ∧
    (relayRun false sched).copied RelayTask.copier = false ∧
    (relayRun false sched).dials ≤ 1 ∧
    (relayRun false sched).closes Conn.dc = 0 ∧
    (relayRun false sched).dcOpen = false ∧
    ((relayRun false sched).hpc = HPc.done →
      (relayRun false sched).trace =
        [RelayEv.dial, RelayEv.logDial, RelayEv.close RelayTask.handler Conn.sc] ∧
      (relayRun false sched).dials = 1 ∧
      (relayRun false sched).scOpen = false) ∧
    (∀ b : Bool,
      (relayRun false (sched ++ List.replicate 5 (Sched.h b))).hpc = HPc.done) := by
  have key : ∀ s ∈ dialFailStates,
      s.gpc = GPc.idle ∧ RelayEv.spawn ∉ s.trace ∧
      s.copied RelayTask.handler = false ∧ s.copied RelayTask.copier = false ∧
      s.dials ≤ 1 ∧ s.closes Conn.dc = 0 ∧ s.dcOpen = false ∧
      (s.hpc = HPc.done →
        s.trace = [RelayEv.dial, RelayEv.logDial, RelayEv.close RelayTask.handler Conn.sc] ∧
        s.dials = 1 ∧ s.scOpen = false) ∧
      (∀ b : Bool,
        ((List.replicate 5 (Sched.h b)).foldl (relayStep false) s).hpc = HPc.done) := by
    decide
  have h := key _ (dialFail_run sched)
  refine ⟨h.1, h.2.1, h.2.2.1, h.2.2.2.1, h.2.2.2.2.1, h.2.2.2.2.2.1, h.2.2.2.2.2.2.1,
    h.2.2.2.2.2.2.2.1, ?_⟩
  intro b
  rw [relayRun_append]
  exact h.2.2.2.2.2.2.2.2 b

theorem handler_returns (s : Relay) (h : RelayInv s)
    (he : RelayEv.copy RelayTask.handler true ∈ s.trace) (a b c : Bool) :
    (handlerStep true c (handlerStep true b (handlerStep true a s))).hpc = HPc.done := by
  obtain ⟨hh, -, -⟩ := h
  cases hp : s.hpc <;> simp only [HInv, hp] at hh
  case returning =>
    obtain ⟨-, hd | hd | hd⟩ := hh <;> obtain ⟨hd, -, -⟩ := hd <;>
      cases a <;> cases b <;> cases c <;> simp [handlerStep, hp, hd, Relay.close]
  case done => simp [handlerStep, hp]
  all_goals exact absurd he (by simp_all)

theorem copier_returns (s : Relay) (h : RelayInv s)
    (he : RelayEv.copy RelayTask.copier true ∈ s.trace) (a b : Bool) :
    (copierStep b (copierStep a s)).gpc = GPc.done := by
  obtain ⟨-, hg, -⟩ := h
  cases gp : s.gpc <;> simp only [GInv, gp] at hg
  case closeSc => simp [copierStep, gp, Relay.close]
  case closeDc => simp [copierStep, gp, Relay.close]
  case done => simp [copierStep, gp]
  all_goals exact absurd he (by simp_all)

/-- C1: in every run of the handler in which the dial succeeds, a task whose
copy has returned reaches its end after its next steps (two for the spawned
task, three for the handler) whatever the other task does meanwhile, and a
task at its end has called `Close` on the client connection `sc` and on the
outbound connection `dc`; so as soon as either task is at its end, and in every
finished run, both connections are closed. -/
theorem relay_closes_both_connections (sched : List Sched) :
    (RelayEv.copy RelayTask.copier true ∈ (relayRun true sched).trace →
      ∀ a b : Bool,
        (relayRun true (sched ++ [Sched.g a, Sched.g b])).gpc = GPc.done) ∧
    (RelayEv.copy RelayTask.handler true ∈ (relayRun true sched).trace →
      ∀ a b c : Bool,
        (relayRun true (sched ++ [Sched.h a, Sched.h b, Sched.h c])).hpc = HPc.done) ∧
    ((relayRun true sched).gpc = GPc.done →
      (relayRun true sched).closesBy RelayTask.copier Conn.sc = 1 ∧
      (relayRun true sched).closesBy RelayTask.copier Conn.dc = 1) ∧
    ((relayRun true sched).hpc = HPc.done →
      (relayRun true sched).closesBy RelayTask.handler Conn.sc = 1 ∧
      (relayRun true sched).closesBy RelayTask.handler Conn.dc = 1) ∧
    ((relayRun true sched).gpc = GPc.done ∨ (relayRun true sched).hpc = HPc.done →
      (relayRun true sched).scOpen = false ∧ (relayRun true sched).dcOpen = false) ∧
    ((relayRun true sched).finished = true →
      (relayRun true sched).scOpen = false ∧ (relayRun true sched).dcOpen = false) := by
  have hinv := relayInv_run sched
  have hclosed : (relayRun true sched).gpc = GPc.done ∨ (relayRun true sched).hpc = HPc.done →
      (relayRun true sched).scOpen = false ∧ (relayRun true sched).dcOpen = false := by
    obtain ⟨hh, hg, hc⟩ := hinv
    intro hd
    rcases hd with hd | hd
    · simp only [GInv, hd] at hg
      simp only [ConnInv, Relay.closes, hd] at hc
      constructor
      · cases ho : (relayRun true sched).scOpen
        · rfl
        · have := hc.1.1 ho; omega
      · apply hc.2.1; omega
    · simp only [HInv, hd] at hh
      simp only [ConnInv, Relay.closes] at hc
      constructor
      · cases ho : (relayRun true sched).scOpen
        · rfl
        · have := hc.1.1 ho; omega
      · apply hc.2.1; omega
  refine ⟨?_, ?_, ?_, ?_, hclosed, ?_⟩
  · intro he a b
    rw [relayRun_append]
    exact copier_returns _ hinv he a b
  · intro he a b c
    rw [relayRun_append]
    exact handler_returns _ hinv he a b c
  · intro hd
    have hg := hinv.2.1
    simp only [GInv, hd] at hg
    exact hg
  · intro hd
    have hh := hinv.1
    simp only [HInv, hd] at hh
    exact ⟨hh.2.2.1, hh.2.2.2⟩
  · intro hf
    apply hclosed
    simp only [Relay.finished, Bool.and_eq_true, decide_eq_true_eq] at hf
    exact Or.inr hf.1

theorem handler_closes_le (s : Relay) (h : RelayInv s) :
    s.closesBy RelayTask.handler Conn.sc ≤ 1 ∧ s.closesBy RelayTask.handler Conn.dc ≤ 1 := by
  obtain ⟨hh, -, -⟩ := h
  cases hp : s.hpc <;> simp only [HInv, hp] at hh
  case returning => omega
  all_goals omega

theorem copier_closes_le (s : Relay) (h : RelayInv s) :
    s.closesBy RelayTask.copier Conn.sc ≤ 1 ∧ s.closesBy RelayTask.copier Conn.dc ≤ 1 := by
  obtain ⟨-, hg, -⟩ := h
  cases gp : s.gpc <;> simp only [GInv, gp] at hg <;> omega

/-- C4, as stated, fails: in the complete run `doubleCloseRun` of an
established relay both tasks perform the closing, and `Close` is invoked twice
on the client connection and twice on the outbound connection. -/
theorem relay_close_invoked_twice :
    (relayRun true doubleCloseRun).finished = true ∧
    (relayRun true doubleCloseRun).closesBy RelayTask.copier Conn.sc = 1 ∧
    (relayRun true doubleCloseRun).closesBy RelayTask.handler Conn.sc = 1 ∧
    (relayRun true doubleCloseRun).closesBy RelayTask.copier Conn.dc = 1 ∧
    (relayRun true doubleCloseRun).closesBy RelayTask.handler Conn.dc = 1 ∧
    ¬ ((relayRun true doubleCloseRun).closes Conn.sc ≤ 1) ∧
    ¬ ((relayRun true doubleCloseRun).closes Conn.dc ≤ 1) := by
  decide

/-- C4, amended: over the whole lifetime of one relayed connection each of the
two tasks invokes `Close` at most once on the client connection and at most
once on the outbound connection, so each connection sees at most two `Close`
calls; a connection is open exactly until the first of them, so it goes from
open to closed once and the later call finds it closed. In a finished run with
a successful dial both tasks have performed the closing: each has called
`Close` once on each connection. When the dial fails only the handler closes:
at most one `Close` on the client connection, none on an outbound one. -/
theorem relay_close_at_most_once_per_task (dialOk : Bool) (sched : List Sched) :
    (relayRun dialOk sched).closesBy RelayTask.handler Conn.sc ≤ 1 ∧
    (relayRun dialOk sched).closesBy RelayTask.handler Conn.dc ≤ 1 ∧
    (relayRun dialOk sched).closesBy RelayTask.copier Conn.sc ≤ 1 ∧
    (relayRun dialOk sched).closesBy RelayTask.copier Conn.dc ≤ 1 ∧
    (relayRun dialOk sched).closes Conn.sc ≤ 2 ∧
    (relayRun dialOk sched).closes Conn.dc ≤ 2 ∧
    ((relayRun dialOk sched).scOpen = true ↔ (relayRun dialOk sched).closes Conn.sc = 0) ∧
    ((relayRun dialOk sched).closes Conn.dc ≠ 0 → (relayRun dialOk sched).dcOpen = false) ∧
    (dialOk = true → (relayRun dialOk sched).finished = true →
      (relayRun dialOk sched).closesBy RelayTask.handler Conn.sc = 1 ∧
      (relayRun dialOk sched).closesBy RelayTask.handler Conn.dc = 1 ∧
      (relayRun dialOk sched).closesBy RelayTask.copier Conn.sc = 1 ∧
      (relayRun dialOk sched).closesBy RelayTask.copier Conn.dc = 1 ∧
      (relayRun dialOk sched).closes Conn.sc = 2 ∧
      (relayRun dialOk sched).closes Conn.dc = 2) ∧
    (dialOk = false →
      (relayRun dialOk sched).closes Conn.sc ≤ 1 ∧ (relayRun dialOk sched).closes Conn.dc = 0) := by
  cases dialOk with
  | false =>
    have key : ∀ s ∈ dialFailStates,
        s.closesBy RelayTask.handler Conn.sc ≤ 1 ∧ s.closesBy RelayTask.handler Conn.dc ≤ 1 ∧
        s.closesBy RelayTask.copier Conn.sc ≤ 1 ∧ s.closesBy RelayTask.copier Conn.dc ≤ 1 ∧
        s.closes Conn.sc ≤ 2 ∧ s.closes Conn.dc ≤ 2 ∧
        (s.scOpen = true ↔ s.closes Conn.sc = 0) ∧
        (s.closes Conn.dc ≠ 0 → s.dcOpen = false) ∧
        (s.closes Conn.sc ≤ 1 ∧ s.closes Conn.dc = 0) := by
      decide
    have h := key _ (dialFail_run sched)
    refine ⟨h.1, h.2.1, h.2.2.1, h.2.2.2.1, h.2.2.2.2.1, h.2.2.2.2.2.1, h.2.2.2.2.2.2.1,
      h.2.2.2.2.2.2.2.1, ?_, fun _ => h.2.2.2.2.2.2.2.2⟩
    intro hf
    exact absurd hf (by decide)
  | true =>
    have hinv := relayInv_run sched
    have hH := handler_closes_le _ hinv
    have hG := copier_closes_le _ hinv
    obtain ⟨hh, hg, hc⟩ := hinv
    refine ⟨hH.1, hH.2, hG.1, hG.2, ?_, ?_, hc.1, hc.2.1, ?_, ?_⟩
    · simp only [Relay.closes]; omega
    · simp only [Relay.closes]; omega
    · intro _ hf
      simp only [Relay.finished, Bool.and_eq_true, Bool.or_eq_true, decide_eq_true_eq] at hf
      obtain ⟨hd, hgd⟩ := hf
      simp only [HInv, hd] at hh
      have hgd' : (relayRun true sched).gpc = GPc.done := by
        rcases hgd with h | h
        · exact h
        · exact absurd h hh.1
      simp only [GInv, hgd'] at hg
      simp only [Relay.closes]
      omega
    · intro hf
      exact absurd hf (by decide)

/-! ## The accept loops -/

theorem expectedTrace_cons (svc : Service) (r : AcceptRes) (rest : List AcceptRes) :
    expectedTrace svc (r :: rest) = expectedFor svc r ++ expectedTrace svc rest := by
  simp [expectedTrace]

theorem loopInv_init (svc : Service) (script : List AcceptRes) :
    LoopInv svc script (Loop.init script) := by
  simp [LoopInv, Loop.init, loopTodo]

theorem loopInv_step (svc : Service) (script : List AcceptRes) (s : Loop)
    (h : LoopInv svc script s) : LoopInv svc script (loopStep svc s) := by
  obtain ⟨h1, h2, h3⟩ := h
  cases hp : s.pc with
  | accept =>
    cases hq : s.pending with
    | nil =>
      have : loopStep svc s = s := by simp [loopStep, hp, hq]
      rw [this]
      exact ⟨h1, h2, h3⟩
    | cons r rest =>
      cases r with
      | ok conn =>
        refine ⟨by simp [loopStep, hp, hq], ?_, ?_⟩
        · intro e he
          simp only [loopStep, hp, hq, List.mem_append, List.mem_singleton] at he
          rcases he with he | he
          · exact h2 e he
          · subst he; rfl
        · rw [← h3]
          simp [loopStep, hp, hq, loopTodo, expectedTrace_cons, expectedFor]
      | fail err =>
        refine ⟨by simp [loopStep, hp, hq], ?_, ?_⟩
        · intro e he
          simp only [loopStep, hp, hq, List.mem_append, List.mem_singleton] at he
          rcases he with he | he
          · exact h2 e he
          · subst he; rfl
        · rw [← h3]
          simp [loopStep, hp, hq, loopTodo, expectedTrace_cons, expectedFor]
  | logErr err =>
    refine ⟨by simp [loopStep, hp], ?_, ?_⟩
    · intro e he
      simp only [loopStep, hp, List.mem_append, List.mem_singleton] at he
      rcases he with he | he
      · exact h2 e he
      · subst he; rfl
    · rw [← h3]
      simp [loopStep, hp, loopTodo]
  | sleep =>
    refine ⟨by simp [loopStep, hp], ?_, ?_⟩
    · intro e he
      simp only [loopStep, hp, List.mem_append, List.mem_singleton] at he
      rcases he with he | he
      · exact h2 e he
      · subst he; rfl
    · rw [← h3]
      simp [loopStep, hp, loopTodo]
  | spawn conn =>
    refine ⟨by simp [loopStep, hp], ?_, ?_⟩
    · intro e he
      simp only [loopStep, hp, List.mem_append, List.mem_singleton] at he
      rcases he with he | he
      · exact h2 e he
      · subst he; rfl
    · rw [← h3]
      simp [loopStep, hp, loopTodo]
  | exited => exact absurd hp h1

theorem loopInv_run (svc : Service) (script : List AcceptRes) (n : Nat) :
    ∀ s, LoopInv svc script s → LoopInv svc script (loopRun svc n s) := by
  induction n with
  | zero => intro s h; exact h
  | succ n ih => intro s h; exact ih _ (loopInv_step svc script s h)

theorem loopRun_add (svc : Service) (m n : Nat) :
    ∀ s, loopRun svc (m + n) s = loopRun svc n (loopRun svc m s) := by
  induction m with
  | zero => intro s; simp [loopRun]
  | succ m ih =>
    intro s
    rw [Nat.succ_add]
    simp only [loopRun]
    exact ih _

theorem loopRun_blocked (svc : Service) (tr : List LoopEv) (k : Nat) :
    loopRun svc k { pc := LoopPc.accept, pending := [], trace := tr } =
      { pc := LoopPc.accept, pending := [], trace := tr } := by
  induction k with
  | zero => rfl
  | succ k ih => simpa [loopRun, loopStep] using ih

theorem loopRun_script (svc : Service) (script : List AcceptRes) :
    ∀ tr, loopRun svc (stepsFor script) { pc := LoopPc.accept, pending := script, trace := tr } =
      { pc := LoopPc.accept, pending := [], trace := tr ++ expectedTrace svc script } := by
  induction script with
  | nil => intro tr; simp [stepsFor, loopRun, expectedTrace]
  | cons r rest ih =>
    intro tr
    cases r with
    | ok conn =>
      simp only [stepsFor, loopRun, loopStep]
      rw [ih]
      simp [expectedTrace_cons, expectedFor]
    | fail err =>
      simp only [stepsFor, loopRun, loopStep]
      rw [ih]
      simp [expectedTrace_cons, expectedFor]

theorem dispatched_append (xs ys : List LoopEv) :
    dispatched (xs ++ ys) = dispatched xs ++ dispatched ys := by
  induction xs with
  | nil => rfl
  | cons e xs ih => cases e <;> simp [dispatched, ih]

theorem dispatched_expected (svc : Service) (script : List AcceptRes) :
    dispatched (expectedTrace svc script) = accepted script := by
  induction script with
  | nil => rfl
  | cons r rest ih =>
    rw [expectedTrace_cons, dispatched_append, ih]
    cases r <;> simp [expectedFor, dispatched, accepted]

theorem accepted_after_failures (k : Nat) (err : Str) (conn : Nat) :
    accepted (List.replicate k (AcceptRes.fail err) ++ [AcceptRes.ok conn]) = [conn] := by
  induction k with
  | zero => rfl
  | succ k ih => simpa [List.replicate_succ, accepted] using ih

theorem stepsFor_after_failures (k : Nat) (err : Str) (conn : Nat) :
    stepsFor (List.replicate k (AcceptRes.fail err) ++ [AcceptRes.ok conn]) = 3 * k + 2 := by
  induction k with
  | zero => rfl
  | succ k ih =>
    rw [List.replicate_succ, List.cons_append, stepsFor, ih]
    omega

/-- C5: the accept loop of either listener, run against any sequence of accept
outcomes. At no step has the loop task left the loop, and its trace never holds
a fatal exit or the deferred `wg.Done()`. At every step its trace is a prefix
of the expected one: per failed accept the call, one log line and a pause of one
second, no handler; per successful accept the call and one handler dispatched
on that connection. Once the outcomes are used up the trace is the whole
expected trace and the task is inside `Accept` again, where it stays. The
connections dispatched are exactly the accepted ones, in order; so a success
that follows any number of failures is dispatched. -/
theorem accept_loop_survives_failures (svc : Service) (script : List AcceptRes) :
    (∀ n, (loopRun svc n (Loop.init script)).pc ≠ LoopPc.exited ∧
      (∀ e ∈ (loopRun svc n (Loop.init script)).trace, e.isEnd = false) ∧
      (loopRun svc n (Loop.init script)).trace <+: expectedTrace svc script) ∧
    (∀ k, loopRun svc (stepsFor script + k) (Loop.init script) =
      { pc := LoopPc.accept, pending := [], trace := expectedTrace svc script }) ∧
    dispatched (expectedTrace svc script) = accepted script ∧
    (∀ (k : Nat) (err : Str) (conn : Nat),
      dispatched (loopRun svc (3 * k + 2)
        (Loop.init (List.replicate k (AcceptRes.fail err) ++ [AcceptRes.ok conn]))).trace
        = [conn]) := by
  refine ⟨?_, ?_, dispatched_expected svc script, ?_⟩
  · intro n
    obtain ⟨h1, h2, h3⟩ := loopInv_run svc script n _ (loopInv_init svc script)
    exact ⟨h1, h2, ⟨_, h3⟩⟩
  · intro k
    rw [loopRun_add, Loop.init, loopRun_script, loopRun_blocked]
    simp
  · intro k err conn
    rw [← stepsFor_after_failures k err conn, Loop.init, loopRun_script]
    simp [dispatched_expected, accepted_after_failures]

/-! ## The translation of the playback URL -/

theorem takeWhile_eq_replicate (c : Char) (l : Str) :
    l.takeWhile (· == c) = List.replicate (l.takeWhile (· == c)).length c := by
  apply List.eq_replicate_of_mem
  intro b hb
  have := List.mem_takeWhile_imp hb
  simpa using this

theorem rdropWhile_append_rtake (p : Char → Bool) (l : Str) :
    l.rdropWhile p ++ l.rtakeWhile p = l := by
  unfold List.rdropWhile List.rtakeWhile
  rw [← List.reverse_append, List.takeWhile_append_dropWhile, List.reverse_reverse]

theorem rtakeWhile_eq_replicate (c : Char) (l : Str) :
    l.rtakeWhile (· == c) = List.replicate (l.rtakeWhile (· == c)).length c := by
  apply List.eq_replicate_of_mem
  intro b hb
  have hb' : b ∈ l.reverse.takeWhile (· == c) := by
    simpa [List.rtakeWhile] using hb
  have := List.mem_takeWhile_imp hb'
  simpa using this

theorem Trim_decompose (s : Str) (c : Char) :
    ∃ k m : Nat, s = List.replicate k c ++ Trim s c ++ List.replicate m c := by
  refine ⟨((s.rdropWhile (· == c)).takeWhile (· == c)).length,
    (s.rtakeWhile (· == c)).length, ?_⟩
  rw [← rtakeWhile_eq_replicate, ← takeWhile_eq_replicate]
  simp only [Trim, trimLeftByte, trimRightByte, List.takeWhile_append_dropWhile]
  exact (rdropWhile_append_rtake _ s).symm

theorem Trim_head (s : Str) (c : Char) : (Trim s c).head? ≠ some c := by
  have h := List.head?_dropWhile_not (· == c) (trimRightByte s c)
  intro e
  simp only [Trim, trimLeftByte] at e
  rw [e] at h
  simp at h

theorem Trim_last (s : Str) (c : Char) : (Trim s c).getLast? ≠ some c := by
  intro e
  have hne : Trim s c ≠ [] := by
    intro h
    rw [h] at e
    simp at e
  have hsuf : Trim s c <:+ trimRightByte s c := List.dropWhile_suffix _
  have hne2 : trimRightByte s c ≠ [] := by
    intro h
    rw [h] at hsuf
    exact hne (List.suffix_nil.1 hsuf)
  have hl := hsuf.getLast hne
  have hnot := List.rdropWhile_last_not (· == c) s hne2
  rw [List.getLast?_eq_getLast _ hne] at e
  have e' : (Trim s c).getLast hne = c := Option.some.inj e
  simp only [trimRightByte] at hl
  rw [← hl, e'] at hnot
  simp at hnot

theorem upstream_no_colon (u : URL) (h : ':' ∉ u.Host) :
    (startRTMPProxyArgs u).upstream = u.Host ++ ":1935".toList := by
  have hl : ∀ s : Str, ':' ∉ s → lastIndexByte s ':' = none := by
    intro s
    induction s with
    | nil => intro _; rfl
    | cons x xs ih =>
      intro hs
      simp only [List.mem_cons, not_or] at hs
      simp only [lastIndexByte, ih hs.2]
      simp [Ne.symm hs.1]
  have hi : ∀ s : Str, ':' ∉ s → indexByte s ':' = none := by
    intro s
    induction s with
    | nil => intro _; rfl
    | cons x xs ih =>
      intro hs
      simp only [List.mem_cons, not_or] at hs
      simp [indexByte, ih hs.2, Ne.symm hs.1]
  simp [startRTMPProxyArgs, upstreamHostPort, SplitHostPort, hl _ h, JoinHostPort, hi _ h]

/-- C8 at its failing inputs. The default URL gives `server:1935` and a URL
with a port gives `host:port`, and every URL whose host part has no colon gives
`<host>:1935`; but a bracketed IPv6 literal without a port is bracketed a second
time, and an authority with an empty port keeps its colon and is bracketed. -/
theorem rtmp_upstream_rebracketed :
    (startRTMPProxyArgsOf defaultStreamUrl).map (fun a => a.upstream) = some "server:1935".toList ∧
    (startRTMPProxyArgsOf "rtmp://server:1936/app".toList).map (fun a => a.upstream)
      = some "server:1936".toList ∧
    (startRTMPProxyArgsOf "rtmp://[::1]:1936/app".toList).map (fun a => a.upstream)
      = some "[::1]:1936".toList ∧
    (startRTMPProxyArgsOf "rtmp://[::1]/app".toList).map (fun a => a.upstream)
      = some "[[::1]]:1935".toList ∧
    (startRTMPProxyArgsOf "rtmp://server:/app".toList).map (fun a => a.upstream)
      = some "[server:]:1935".toList ∧
    (∀ u : URL, ':' ∉ u.Host → (startRTMPProxyArgs u).upstream = u.Host ++ ":1935".toList) :=
  ⟨by decide, by decide, by decide, by decide, by decide, upstream_no_colon⟩

/-- C9, as stated, fails: for `rtmp://user:pw@server/app` the authority as
written is `user:pw@server`, and the canonical URL handed to the collaborator
is `rtmp://server/app`, without the credentials. -/
theorem rtmp_canonical_drops_userinfo :
    authorityAsWritten userinfoStreamUrl = "user:pw@server".toList ∧
    (startRTMPProxyArgsOf userinfoStreamUrl).map (fun a => a.appName) = some "app".toList ∧
    (startRTMPProxyArgsOf userinfoStreamUrl).map (fun a => a.canonical)
      = some "rtmp://server/app".toList ∧
    (startRTMPProxyArgsOf userinfoStreamUrl).map (fun a => a.canonical)
      ≠ some ("rtmp://".toList ++ authorityAsWritten userinfoStreamUrl ++ ['/'] ++ "app".toList) := by
  decide

/-- C9, amended: for every playback URL that parses, the application name
handed to the collaborator is the parsed path with every leading and trailing
`/` removed (the path is some `/`s, the name, some `/`s; the name neither begins
nor ends with `/`), and the canonical URL is exactly `rtmp://`, the `Host` field
of the parsed URL (host and port as written, without any userinfo), `/`, and
that application name; it does not depend on the query string. -/
theorem rtmp_app_name_and_canonical (pubUrl : Str) (u : URL)
    (h : urlParse pubUrl = Except.ok u) :
    startRTMPProxyArgsOf pubUrl = some (startRTMPProxyArgs u) ∧
    (startRTMPProxyArgs u).appName = Trim u.Path '/' ∧
    (startRTMPProxyArgs u).appName.head? ≠ some '/' ∧
    (startRTMPProxyArgs u).appName.getLast? ≠ some '/' ∧
    (∃ k m : Nat,
      u.Path = List.replicate k '/' ++ (startRTMPProxyArgs u).appName ++ List.replicate m '/') ∧
    (startRTMPProxyArgs u).canonical = "rtmp://".toList ++ u.Host ++ ['/'] ++ (startRTMPProxyArgs u).appName ∧
    (∀ q : Str, (startRTMPProxyArgs { u with RawQuery := q }).canonical = (startRTMPProxyArgs u).canonical) := by
  refine ⟨?_, rfl, Trim_head _ _, Trim_last _ _, Trim_decompose _ _, rfl, fun _ => rfl⟩
  simp [startRTMPProxyArgsOf, h]

/-- Witness of C9: the default URL `rtmp://server/app/?stream` parses, its
application name is `app` and its canonical URL `rtmp://server/app`. -/
theorem rtmp_app_name_and_canonical_witness :
    urlParse defaultStreamUrl = Except.ok defaultStreamURL ∧
    (startRTMPProxyArgs defaultStreamURL).appName = "app".toList ∧
    (startRTMPProxyArgs defaultStreamURL).canonical = "rtmp://server/app".toList ∧
    startRTMPProxyArgsOf defaultStreamUrl = some (startRTMPProxyArgs defaultStreamURL) :=
  ⟨rfl,
   (rtmp_app_name_and_canonical defaultStreamUrl defaultStreamURL rfl).2.1.trans
     (by decide),
   (rtmp_app_name_and_canonical defaultStreamUrl defaultStreamURL rfl).2.2.2.2.2.1.trans
     (by decide),
   (rtmp_app_name_and_canonical defaultStreamUrl defaultStreamURL rfl).1⟩

/-! ## The process: startup and the counter `wg` -/

theorem procStep_exited (cfg : Config) (env : Env) (s : Proc) (a : Act)
    (h : s.exit ≠ Exit.running) : procStep cfg env s a = s := by
  simp [procStep, h]

theorem procFold_exited (cfg : Config) (env : Env) (acts : List Act) :
    ∀ s : Proc, s.exit ≠ Exit.running → acts.foldl (procStep cfg env) s = s := by
  induction acts with
  | nil => intro s _; rfl
  | cons a rest ih =>
    intro s h
    simp only [List.foldl_cons, procStep_exited cfg env s a h]
    exact ih s h

theorem procRun_append (cfg : Config) (env : Env) (xs ys : List Act) :
    procRun cfg env (xs ++ ys) = ys.foldl (procStep cfg env) (procRun cfg env xs) := by
  simp [procRun, List.foldl_append]

theorem procRun_invalid_bind (cfg : Config) (env : Env)
    (hbad : bindFound env.nifs cfg.bind = false) (acts : List Act) :
    procRun cfg env acts =
      if Act.main ∈ acts then Proc.init.fatalf (Fatal.invalidBindIP cfg.bind) else Proc.init := by
  unfold procRun
  induction acts with
  | nil => simp
  | cons a rest ih =>
    cases a with
    | main =>
      have h1 : procStep cfg env Proc.init Act.main
          = Proc.init.fatalf (Fatal.invalidBindIP cfg.bind) := by
        simp [procStep, mainStep, Proc.init, hbad]
      simp only [List.foldl_cons, h1, List.mem_cons, true_or, if_true]
      exact procFold_exited cfg env rest _ (by simp [Proc.fatalf])
    | serveReturns t err =>
      have h1 : procStep cfg env Proc.init (Act.serveReturns t err) = Proc.init := by
        cases t <;> simp [procStep, serveStep, Proc.init]
      simp only [List.foldl_cons, h1, ih]
      simp
    | arrive svc r =>
      have h1 : procStep cfg env Proc.init (Act.arrive svc r) = Proc.init := by
        cases svc <;> simp [procStep, arriveStep, Proc.init]
      simp only [List.foldl_cons, h1, ih]
      simp
    | loop svc =>
      have h1 : procStep cfg env Proc.init (Act.loop svc) = Proc.init := by
        cases svc <;> simp [procStep, loopTaskStep, Proc.init]
      simp only [List.foldl_cons, h1, ih]
      simp

/-- C7: for every configuration and every list of interface addresses (ip
parts without `/`) in which no address has the bind address as its ip part, in
every run of the process: the counter `wg` stays zero, no start function is
called, no listener is opened and no task is started; and as soon as `main`
has made its first step the process has exited through the fatal
`invalid bind IP` diagnostic, which is its whole trace. -/
theorem invalid_bind_is_fatal_before_start (cfg : Config) (env : Env) (acts : List Act)
    (hwf : ∀ a ∈ env.nifs, '/' ∉ a.ip) (hno : ∀ a ∈ env.nifs, a.ip ≠ cfg.bind) :
    (procRun cfg env acts).wg = 0 ∧
    (∀ e ∈ (procRun cfg env acts).trace, e.isStart = false) ∧
    (procRun cfg env acts).liveTasks = 0 ∧
    (procRun cfg env acts).goneTasks = 0 ∧
    (procRun cfg env acts).pc = MainPc.validate ∧
    (Act.main ∈ acts →
      (procRun cfg env acts).exit = Exit.fatal (Fatal.invalidBindIP cfg.bind) ∧
      (procRun cfg env acts).trace = [PEv.fatal (Fatal.invalidBindIP cfg.bind)]) ∧
    (Act.main ∉ acts → procRun cfg env acts = Proc.init) := by
  have hbad : bindFound env.nifs cfg.bind = false :=
    (bindFound_false_iff cfg.bind env.nifs hwf).2 hno
  rw [procRun_invalid_bind cfg env hbad acts]
  by_cases hm : Act.main ∈ acts
  · simp [hm, Proc.fatalf, Proc.init, Proc.liveTasks, Proc.goneTasks, TaskSt.live, TaskSt.gone,
      PEv.isStart]
  · simp [hm, Proc.init, Proc.liveTasks, Proc.goneTasks, TaskSt.live, TaskSt.gone]

/-- Witness of C7: the bind address `10.0.0.1` on a host whose addresses are
`127.0.0.1/8`, `10.0.0.10/24` and `::1/128`, with all three services asked
for: the process exits at the first step of `main`. -/
theorem invalid_bind_is_fatal_before_start_witness :
    (∀ a ∈ goodEnv.nifs, a.ip ≠ badBindConfig.bind) ∧
    (procRun badBindConfig goodEnv [Act.main, Act.main, Act.loop Service.rtmp]).exit
      = Exit.fatal (Fatal.invalidBindIP "10.0.0.1".toList) ∧
    (procRun badBindConfig goodEnv [Act.main, Act.main, Act.loop Service.rtmp]).wg = 0 :=
  ⟨by decide,
   ((invalid_bind_is_fatal_before_start badBindConfig goodEnv
      [Act.main, Act.main, Act.loop Service.rtmp] (by decide) (by decide)).2.2.2.2.2.1
      (by decide)).1,
   (invalid_bind_is_fatal_before_start badBindConfig goodEnv
      [Act.main, Act.main, Act.loop Service.rtmp] (by decide) (by decide)).1⟩

theorem loopStep_not_exited (svc : Service) (l : Loop) (h : l.pc ≠ LoopPc.exited) :
    (loopStep svc l).pc ≠ LoopPc.exited := by
  unfold loopStep
  cases hp : l.pc with
  | accept =>
    cases hq : l.pending with
    | nil => simp [hp]
    | cons r rest => cases r <;> simp
  | logErr err => simp
  | sleep => simp
  | spawn conn => simp
  | exited => exact absurd hp h

theorem started_zero (st : TaskSt) (h : st.started = 0) : st = TaskSt.absent := by
  cases st <;> simp [TaskSt.started] at h ⊢

theorem live_running : TaskSt.running.live = 1 := rfl

theorem live_absent : TaskSt.absent.live = 0 := rfl

theorem live_returned : TaskSt.returned.live = 0 := rfl

theorem started_running : TaskSt.running.started = 1 := rfl

theorem started_returned : TaskSt.returned.started = 1 := rfl

theorem started_absent : TaskSt.absent.started = 0 := rfl

theorem procInv_init (cfg : Config) : ProcInv cfg Proc.init := by
  simp [ProcInv, Proc.init, Proc.liveTasks, TaskSt.live, TaskSt.started, MainPc.announced,
    MainPc.rank, Loop.init]

set_option maxHeartbeats 1600000 in
theorem procInv_main (cfg : Config) (env : Env) (s : Proc) (h : ProcInv cfg s) :
    ProcInv cfg (mainStep cfg env s) := by
  unfold ProcInv at h
  obtain ⟨h1, h2, h3, h4, h5, h6, h7, h8, h9, h10, h11, h12, h13, h14⟩ := h
  have a2 := started_zero s.dnsTCP
  have a3 := started_zero s.dnsUDP
  have a4 := started_zero s.rtmpTask
  have a5 := started_zero s.fwdTask
  unfold mainStep
  cases hp : s.pc <;>
    simp only [hp, MainPc.rank, MainPc.announced, Proc.liveTasks] at h1 h2 h3 h4 h5 h6 h7 h8 h13 h14 ⊢
  all_goals (try split)
  all_goals
    simp only [ProcInv, Proc.goto, Proc.fatalf, Proc.liveTasks, MainPc.rank, MainPc.announced]
  all_goals simp_all [live_running, live_absent, started_running, started_absent]
  all_goals omega

theorem procInv_fatalf (cfg : Config) (s : Proc) (f : Fatal) (h : ProcInv cfg s)
    (hx : s.exit = Exit.running) : ProcInv cfg (s.fatalf f) := by
  unfold ProcInv at h ⊢
  obtain ⟨h1, h2, h3, h4, h5, h6, h7, h8, h9, h10, h11, h12, h13, h14⟩ := h
  have hd : s.pc ≠ MainPc.done := by
    intro hd
    rw [h13.2 hd] at hx
    exact absurd hx (by decide)
  refine ⟨h1, h2, h3, h4, h5, h6, h7, h8, h9, h10, h11, h12, ?_, ?_⟩
  · simp only [Proc.fatalf]
    constructor
    · intro e
      exact absurd e (by simp)
    · intro e
      exact absurd e hd
  · intro e
    exact absurd e hd

theorem procInv_serve (cfg : Config) (t : DnsTask) (err : Option Str) (s : Proc)
    (h : ProcInv cfg s) (hx : s.exit = Exit.running) : ProcInv cfg (serveStep t err s) := by
  have hf := fun f => procInv_fatalf cfg s f h hx
  unfold ProcInv at h
  obtain ⟨h1, h2, h3, h4, h5, h6, h7, h8, h9, h10, h11, h12, h13, h14⟩ := h
  have hd : s.pc ≠ MainPc.done := by
    intro hd
    rw [h13.2 hd] at hx
    exact absurd hx (by decide)
  have hkeep : ProcInv cfg s := ⟨h1, h2, h3, h4, h5, h6, h7, h8, h9, h10, h11, h12, h13, h14⟩
  cases t with
  | tcp =>
    by_cases hr : s.dnsTCP = TaskSt.running
    · cases err with
      | some e =>
        simp only [serveStep, hr, if_true]
        exact hf _
      | none =>
        simp only [serveStep, hr, if_true]
        unfold ProcInv
        simp only [Proc.liveTasks, hr, live_running, started_running] at h1 h2
        refine ⟨?_, ?_, h3, h4, h5, h6, h7, h8, h9, h10, h11, h12, ?_, ?_⟩
        · simp only [Proc.liveTasks, live_returned]
          rw [h1]
          push_cast
          omega
        · simp only [started_returned]
          exact h2
        · simp only
          exact ⟨fun e => absurd e (by rw [hx]; decide), fun e => absurd e hd⟩
        · intro e
          exact absurd e hd
    · simp only [serveStep, hr, if_false]
      exact hkeep
  | udp =>
    by_cases hr : s.dnsUDP = TaskSt.running
    · cases err with
      | some e =>
        simp only [serveStep, hr, if_true]
        exact hf _
      | none =>
        simp only [serveStep, hr, if_true]
        unfold ProcInv
        simp only [Proc.liveTasks, hr, live_running, started_running] at h1 h3
        refine ⟨?_, h2, ?_, h4, h5, h6, h7, h8, h9, h10, h11, h12, ?_, ?_⟩
        · simp only [Proc.liveTasks, live_returned]
          rw [h1]
          push_cast
          omega
        · simp only [started_returned]
          exact h3
        · simp only
          exact ⟨fun e => absurd e (by rw [hx]; decide), fun e => absurd e hd⟩
        · intro e
          exact absurd e hd
    · simp only [serveStep, hr, if_false]
      exact hkeep

theorem procInv_arrive (cfg : Config) (svc : Service) (r : AcceptRes) (s : Proc)
    (h : ProcInv cfg s) : ProcInv cfg (arriveStep svc r s) := by
  cases svc with
  | rtmp =>
    by_cases hr : s.rtmpTask = TaskSt.running
    · simp only [arriveStep, if_pos hr]
      exact h
    · simp only [arriveStep, if_neg hr]
      exact h
  | forward =>
    by_cases hr : s.fwdTask = TaskSt.running
    · simp only [arriveStep, if_pos hr]
      exact h
    · simp only [arriveStep, if_neg hr]
      exact h

theorem procInv_loop (cfg : Config) (svc : Service) (s : Proc)
    (h : ProcInv cfg s) : ProcInv cfg (loopTaskStep svc s) := by
  have hr := loopStep_not_exited Service.rtmp s.rtmpLoop h.2.2.2.2.2.2.2.2.1
  have hf := loopStep_not_exited Service.forward s.fwdLoop h.2.2.2.2.2.2.2.2.2.1
  obtain ⟨h1, h2, h3, h4, h5, h6, h7, h8, h9, h10, h11, h12, h13, h14⟩ := h
  cases svc with
  | rtmp =>
    by_cases hrun : s.rtmpTask = TaskSt.running
    · simp only [loopTaskStep, if_pos hrun, if_neg hr]
      exact ⟨h1, h2, h3, h4, h5, h6, h7, h8, hr, h10, h11, h12, h13, h14⟩
    · simp only [loopTaskStep, if_neg hrun]
      exact ⟨h1, h2, h3, h4, h5, h6, h7, h8, h9, h10, h11, h12, h13, h14⟩
  | forward =>
    by_cases hrun : s.fwdTask = TaskSt.running
    · simp only [loopTaskStep, if_pos hrun, if_neg hf]
      exact ⟨h1, h2, h3, h4, h5, h6, h7, h8, h9, hf, h11, h12, h13, h14⟩
    · simp only [loopTaskStep, if_neg hrun]
      exact ⟨h1, h2, h3, h4, h5, h6, h7, h8, h9, h10, h11, h12, h13, h14⟩

theorem procInv_step (cfg : Config) (env : Env) (s : Proc) (a : Act) (h : ProcInv cfg s) :
    ProcInv cfg (procStep cfg env s a) := by
  unfold procStep
  by_cases hx : s.exit = Exit.running
  · simp only [hx, ne_eq, not_true_eq_false, if_false]
    cases a with
    | main => exact procInv_main cfg env s h
    | serveReturns t err => exact procInv_serve cfg t err s h hx
    | arrive svc r => exact procInv_arrive cfg svc r s h
    | loop svc => exact procInv_loop cfg svc s h
  · simp only [ne_eq, hx, not_false_eq_true, if_true]
    exact h

theorem procInv_foldl (cfg : Config) (env : Env) (acts : List Act) :
    ∀ s, ProcInv cfg s → ProcInv cfg (acts.foldl (procStep cfg env) s) := by
  induction acts with
  | nil => intro s h; exact h
  | cons a rest ih => intro s h; exact ih _ (procInv_step cfg env s a h)

theorem procInv_run (cfg : Config) (env : Env) (acts : List Act) :
    ProcInv cfg (procRun cfg env acts) :=
  procInv_foldl cfg env acts _ (procInv_init cfg)

theorem gone_running : TaskSt.running.gone = 0 := rfl

theorem gone_returned : TaskSt.returned.gone = 1 := rfl

theorem started_eq (st : TaskSt) : st.started = st.live + st.gone := by
  cases st <;> rfl

theorem wg_change_main (cfg : Config) (env : Env) (s : Proc) :
    (mainStep cfg env s).wg = s.wg ∨
    (0 < (mainStep cfg env s).pc.announced ∧ s.pc.announced = 0 ∧
      (mainStep cfg env s).wg = s.wg + ((mainStep cfg env s).pc.announced : Nat) ∧
      (mainStep cfg env s).liveTasks = s.liveTasks) := by
  unfold mainStep
  cases hp : s.pc <;> simp only
  case dnsAdd => right; simp [MainPc.announced, Proc.liveTasks]
  case rtmpAdd => right; simp [MainPc.announced, Proc.liveTasks]
  case fwdAdd => right; simp [MainPc.announced, Proc.liveTasks]
  all_goals left
  all_goals (try split)
  all_goals simp [Proc.goto, Proc.fatalf]

theorem wg_change_serve (t : DnsTask) (err : Option Str) (s : Proc) :
    (serveStep t err s).wg = s.wg ∨
    ((serveStep t err s).wg = s.wg - 1 ∧
      (serveStep t err s).goneTasks = s.goneTasks + 1 ∧
      (serveStep t err s).liveTasks + 1 = s.liveTasks) := by
  cases t with
  | tcp =>
    by_cases hr : s.dnsTCP = TaskSt.running
    · cases err with
      | some e => left; simp [serveStep, hr, Proc.fatalf]
      | none =>
        right
        simp only [serveStep, if_pos hr, ite_true, Proc.goneTasks, Proc.liveTasks, hr, live_running,
          live_returned, gone_running, gone_returned]
        refine ⟨?_, ?_, ?_⟩ <;> first | trivial | omega
    · left; simp [serveStep, hr]
  | udp =>
    by_cases hr : s.dnsUDP = TaskSt.running
    · cases err with
      | some e => left; simp [serveStep, hr, Proc.fatalf]
      | none =>
        right
        simp only [serveStep, if_pos hr, ite_true, Proc.goneTasks, Proc.liveTasks, hr, live_running,
          live_returned, gone_running, gone_returned]
        refine ⟨?_, ?_, ?_⟩ <;> first | trivial | omega
    · left; simp [serveStep, hr]

theorem wg_change_loop (svc : Service) (s : Proc) :
    (loopTaskStep svc s).wg = s.wg ∨
    ((loopTaskStep svc s).wg = s.wg - 1 ∧
      (loopTaskStep svc s).goneTasks = s.goneTasks + 1 ∧
      (loopTaskStep svc s).liveTasks + 1 = s.liveTasks) := by
  cases svc with
  | rtmp =>
    by_cases hr : s.rtmpTask = TaskSt.running
    · by_cases he : (loopStep Service.rtmp s.rtmpLoop).pc = LoopPc.exited
      · right
        simp only [loopTaskStep, if_pos hr, if_pos he, ite_true, Proc.goneTasks, Proc.liveTasks, hr,
          live_running, live_returned, gone_running, gone_returned]
        refine ⟨?_, ?_, ?_⟩ <;> first | trivial | omega
      · left; simp only [loopTaskStep, if_pos hr, if_neg he]
    · left; simp only [loopTaskStep, if_neg hr]
  | forward =>
    by_cases hr : s.fwdTask = TaskSt.running
    · by_cases he : (loopStep Service.forward s.fwdLoop).pc = LoopPc.exited
      · right
        simp only [loopTaskStep, if_pos hr, if_pos he, ite_true, Proc.goneTasks, Proc.liveTasks, hr,
          live_running, live_returned, gone_running, gone_returned]
        refine ⟨?_, ?_, ?_⟩ <;> trivial
      · left; simp only [loopTaskStep, if_pos hr, if_neg he]
    · left; simp only [loopTaskStep, if_neg hr]

theorem wg_change_arrive (svc : Service) (r : AcceptRes) (s : Proc) :
    (arriveStep svc r s).wg = s.wg := by
  cases svc with
  | rtmp => by_cases hr : s.rtmpTask = TaskSt.running <;> simp [arriveStep, hr]
  | forward => by_cases hr : s.fwdTask = TaskSt.running <;> simp [arriveStep, hr]

theorem wg_change (cfg : Config) (env : Env) (s : Proc) (a : Act) :
    (procStep cfg env s a).wg = s.wg ∨
    (a = Act.main ∧ 0 < (procStep cfg env s a).pc.announced ∧ s.pc.announced = 0 ∧
      (procStep cfg env s a).wg = s.wg + ((procStep cfg env s a).pc.announced : Nat) ∧
      (procStep cfg env s a).liveTasks = s.liveTasks) ∨
    (a ≠ Act.main ∧ (procStep cfg env s a).wg = s.wg - 1 ∧
      (procStep cfg env s a).goneTasks = s.goneTasks + 1 ∧
      (procStep cfg env s a).liveTasks + 1 = s.liveTasks) := by
  unfold procStep
  by_cases hx : s.exit = Exit.running
  · simp only [hx, ne_eq, not_true_eq_false, if_false]
    cases a with
    | main =>
      rcases wg_change_main cfg env s with h | h
      · exact Or.inl h
      · exact Or.inr (Or.inl ⟨rfl, h⟩)
    | serveReturns t err =>
      rcases wg_change_serve t err s with h | h
      · exact Or.inl h
      · exact Or.inr (Or.inr ⟨by simp, h⟩)
    | arrive svc r => exact Or.inl (wg_change_arrive svc r s)
    | loop svc =>
      rcases wg_change_loop svc s with h | h
      · exact Or.inl h
      · exact Or.inr (Or.inr ⟨by simp, h⟩)
  · left
    simp only [ne_eq, hx, not_false_eq_true, if_true]

/-- C10, as stated, fails: with the DNS service enabled, after the sixth
statement of `main` (`wg.Add(2)`, line 117) and before the first `go`
statement (line 118) the counter is 2 while no listener task has been started;
one statement later it is 2 with one task started. -/
theorem wg_ahead_of_started_tasks :
    (procRun dnsOnlyConfig goodEnv (List.replicate 6 Act.main)).exit = Exit.running ∧
    (procRun dnsOnlyConfig goodEnv (List.replicate 6 Act.main)).pc = MainPc.dnsGoTCP ∧
    (procRun dnsOnlyConfig goodEnv (List.replicate 6 Act.main)).wg = 2 ∧
    (procRun dnsOnlyConfig goodEnv (List.replicate 6 Act.main)).liveTasks = 0 ∧
    (procRun dnsOnlyConfig goodEnv (List.replicate 7 Act.main)).wg = 2 ∧
    (procRun dnsOnlyConfig goodEnv (List.replicate 7 Act.main)).liveTasks = 1 ∧
    ¬ ((procRun dnsOnlyConfig goodEnv (List.replicate 6 Act.main)).wg
        = ((procRun dnsOnlyConfig goodEnv (List.replicate 6 Act.main)).liveTasks : Nat)) := by
  decide

/-- C10, amended: the counter `wg` starts at zero. In every run it changes
only in two ways: a `wg.Add` of `main`, which raises it by the number of tasks
announced, before their `go` statements; and the return of a started task,
which lowers it by one. At every point it equals the number of tasks announced
and not yet started plus the number of listener tasks started and not yet
returned; so it is never below the latter and equals it whenever `main` does
not stand between a `wg.Add` and the `go` statements that follow. The accept
loops never return. When `main` has reached `wg.Wait()`, the counter plus the
number of tasks that have returned is 2 for the DNS service plus 1 for the RTMP
relay plus 1 for the forward proxy, as enabled; so the counter is that number
as long as no task has returned. `wg.Wait()` lets `main` return only when the
counter is zero, and blocks otherwise. -/
theorem wg_counts_announced_and_live_tasks (cfg : Config) (env : Env) (acts : List Act) :
    Proc.init.wg = 0 ∧
    (procRun cfg env acts).wg =
      (((procRun cfg env acts).pc.announced + (procRun cfg env acts).liveTasks : Nat) : Int) ∧
    (((procRun cfg env acts).liveTasks : Nat) : Int) ≤ (procRun cfg env acts).wg ∧
    ((procRun cfg env acts).pc.announced = 0 →
      (procRun cfg env acts).wg = ((procRun cfg env acts).liveTasks : Nat)) ∧
    (procRun cfg env acts).rtmpTask ≠ TaskSt.returned ∧
    (procRun cfg env acts).fwdTask ≠ TaskSt.returned ∧
    ((procRun cfg env acts).pc = MainPc.wait →
      (procRun cfg env acts).wg + ((procRun cfg env acts).goneTasks : Nat)
        = (cfg.serviceTasks : Nat)) ∧
    ((procRun cfg env acts).pc = MainPc.wait → (procRun cfg env acts).goneTasks = 0 →
      (procRun cfg env acts).wg = (cfg.serviceTasks : Nat)) ∧
    ((procRun cfg env acts).exit = Exit.returned → (procRun cfg env acts).wg = 0) ∧
    ((procRun cfg env acts).pc = MainPc.wait → (procRun cfg env acts).wg ≠ 0 →
      procStep cfg env (procRun cfg env acts) Act.main = procRun cfg env acts) ∧
    (∀ a : Act,
      (procStep cfg env (procRun cfg env acts) a).wg = (procRun cfg env acts).wg ∨
      (a = Act.main ∧ 0 < (procStep cfg env (procRun cfg env acts) a).pc.announced ∧
        (procRun cfg env acts).pc.announced = 0 ∧
        (procStep cfg env (procRun cfg env acts) a).wg = (procRun cfg env acts).wg +
          ((procStep cfg env (procRun cfg env acts) a).pc.announced : Nat) ∧
        (procStep cfg env (procRun cfg env acts) a).liveTasks
          = (procRun cfg env acts).liveTasks) ∨
      (a ≠ Act.main ∧
        (procStep cfg env (procRun cfg env acts) a).wg = (procRun cfg env acts).wg - 1 ∧
        (procStep cfg env (procRun cfg env acts) a).goneTasks
          = (procRun cfg env acts).goneTasks + 1 ∧
        (procStep cfg env (procRun cfg env acts) a).liveTasks + 1
          = (procRun cfg env acts).liveTasks)) := by
  have hinv := procInv_run cfg env acts
  generalize procRun cfg env acts = s at hinv ⊢
  obtain ⟨h1, h2, h3, h4, h5, h6, h7, h8, h9, h10, h11, h12, h13, h14⟩ := hinv
  have hsum : s.pc = MainPc.wait →
      s.wg + ((s.goneTasks : Nat) : Int) = (cfg.serviceTasks : Nat) := by
    intro hp
    simp only [hp, MainPc.rank, MainPc.announced, started_eq] at h1 h2 h3 h4 h5
    simp only [Proc.liveTasks] at h1
    simp only [Proc.goneTasks, Config.serviceTasks]
    rw [h1]
    by_cases c1 : cfg.hijackDNS = true <;> by_cases c2 : cfg.streamUrl = [] <;>
      by_cases c3 : cfg.forward = [] <;>
      simp [c1, c2, c3] at h2 h3 h4 h5 ⊢ <;> omega
  refine ⟨rfl, h1, ?_, ?_, h11, h12, hsum, ?_, ?_, ?_, fun a => wg_change cfg env s a⟩
  · rw [h1]
    push_cast
    omega
  · intro h0
    rw [h1, h0]
    simp
  · intro hp hg
    have := hsum hp
    rw [hg] at this
    simpa using this
  · intro he
    exact h14 (h13.1 he)
  · intro hp hw
    by_cases hx : s.exit = Exit.running
    · simp [procStep, hx, mainStep, hp, hw]
    · exact procStep_exited cfg env s Act.main hx

end Allmight
